import Mathlib

/-!
# Push-notification dispatcher (`fcm.go`)

A shallow embedding of `FCMManager.processMessageCreated` and of the listener
goroutine started by `NewFCMManager`.

Modelling conventions.

* Go strings are modelled by Lean strings, i.e. sequences of Unicode code points
  (`utf8string.RuneCount` is the number of code points, `utf8string.Slice` cuts at code
  point indices).
* A `uuid.UUID` is modelled by the natural number it encodes; `uuid.Nil` is `0`.  The
  textual parser `uuid.FromString` and the printer `UUID.String` belong to an external
  library and are parameters of the environment.
* The repository is a record of functions (one snapshot of the database for the time an
  event is processed).  The push provider is an oracle that sees the whole history of
  effects so far, so its answers may change from one attempt to the next.
* Every externally visible action (repository call, provider call, counter increment,
  log line) is appended to a chronological trace of `Effect`s.
* `backoff.Retry` with an exponential back-off is modelled by a retry budget: the number
  of times `NextBackOff` returns a duration before it returns `Stop`.
-/

namespace FCM

/-! ## Data model -/

/-- A `uuid.UUID`, as the number it encodes. -/
abbrev UUID := Nat

/-- The value `uuid.Nil`. -/
def UUID.Nil : UUID := 0

/-- An error returned by a repository method. -/
abbrev RepoError := String

/-- Error codes of the push provider, as told apart by the predicates
`messaging.IsRegistrationTokenNotRegistered`, `messaging.IsInvalidArgument`,
`messaging.IsServerUnavailable`, `messaging.IsInternal`,
`messaging.IsMessageRateExceeded`, `messaging.IsUnknown`; `other` is any error none of
these predicates accepts. -/
inductive SendError where
  | registrationTokenNotRegistered
  | invalidArgument
  | serverUnavailable
  | internal
  | messageRateExceeded
  | unknown
  | other
  deriving DecidableEq, Repr

/-- A Go `error` value that can reach `backoff.Retry` from the send closure. -/
inductive Error where
  | fcm (e : SendError)
  | repo (e : RepoError)
  deriving DecidableEq, Repr

/-- Modelled from the spec: `model.Message` is not part of the sources; it carries `id`,
`userId` (the author) and `channelId`. -/
structure Message where
  ID : UUID
  UserID : UUID
  ChannelID : UUID
  deriving DecidableEq, Repr

/-- Modelled from the spec: `model.Channel` is not part of the sources; it has `id`,
`isPublic`, `isForced` and the derived `isDM`, here the field `IsDM` standing for the
result of `ch.IsDMChannel()`. -/
structure Channel where
  ID : UUID
  IsPublic : Bool
  IsForced : Bool
  IsDM : Bool
  deriving DecidableEq, Repr

/-- Modelled from the spec: `model.User` is not part of the sources; the dispatcher reads
`Name` and `DisplayName`. -/
structure User where
  ID : UUID
  Name : String
  DisplayName : String
  deriving DecidableEq, Repr

/-- Modelled from the spec: `message.EmbeddedInfo`, a tagged reference
`{kind, id}`; `Typ` is the Go field `Type`, `ID` the raw id string. -/
structure EmbeddedInfo where
  Typ : String
  ID : String
  deriving DecidableEq, Repr

/-- Modelled from the spec: file metadata returned by `GetFileMeta`; only `HasThumbnail`
is read. -/
structure FileMeta where
  HasThumbnail : Bool
  deriving DecidableEq, Repr

/-- Modelled from the spec: `repository.UsersQuery`, the composable filter given to
`GetUserIDs` (`Active()`, `NotBot()`, `CMemberOf`, `SubscriberOf`, `GMemberOf`). -/
structure UsersQuery where
  IsBot : Option Bool := none
  IsActive : Option Bool := none
  IsCMemberOf : Option UUID := none
  IsGMemberOf : Option UUID := none
  IsSubscriberOf : Option UUID := none
  deriving DecidableEq, Repr

/-- The filter `q.Active()`. -/
def UsersQuery.Active (q : UsersQuery) : UsersQuery := { q with IsActive := some true }

/-- The filter `q.NotBot()`. -/
def UsersQuery.NotBot (q : UsersQuery) : UsersQuery := { q with IsBot := some false }

/-- The filter `q.CMemberOf(channelId)`. -/
def UsersQuery.CMemberOf (q : UsersQuery) (id : UUID) : UsersQuery :=
  { q with IsCMemberOf := some id }

/-- The filter `q.GMemberOf(groupId)`. -/
def UsersQuery.GMemberOf (q : UsersQuery) (id : UUID) : UsersQuery :=
  { q with IsGMemberOf := some id }

/-- The filter `q.SubscriberOf(channelId)`. -/
def UsersQuery.SubscriberOf (q : UsersQuery) (id : UUID) : UsersQuery :=
  { q with IsSubscriberOf := some id }

/-! ## The `data` map -/

/-- A Go `map[string]string`, as an association list with at most one entry per key. -/
abbrev DataMap := List (String × String)

/-- The assignment `data[k] = v`. -/
def DataMap.set : DataMap → String → String → DataMap
  | [], k, v => [(k, v)]
  | (k', v') :: m, k, v => if k' = k then (k, v) :: m else (k', v') :: DataMap.set m k v

/-- The lookup `data[k]`, `none` when the key is absent. -/
def DataMap.get : DataMap → String → Option String
  | [], _ => none
  | (k', v') :: m, k => if k' = k then some v' else DataMap.get m k

/-- The `messaging.Message` handed to the provider. -/
structure Payload where
  Token : String
  Data : DataMap
  AndroidPriority : String
  AndroidTTL : Nat
  APNSExpiration : String
  ApsAlertTitle : String
  ApsAlertBody : String
  ApsSound : String
  ApsThreadID : String
  WebpushTTL : String
  deriving DecidableEq, Repr

/-! ## Effects and environment -/

/-- An externally visible action of the dispatcher, with the answer it received. -/
inductive Effect where
  | getChannel (id : UUID)
  | getUser (id : UUID)
  | getChannelPath (id : UUID)
  | getFileMeta (id : UUID)
  | getUserIDs (q : UsersQuery)
  | getMuteUserIDs (id : UUID)
  | getDeviceTokensByUserID (u : UUID)
  | send (payload : Payload) (result : Option SendError)
  | counterInc (label : String)
  | unregisterDevice (token : String) (result : Option RepoError)
  | logError (msg : String)
  deriving DecidableEq, Repr

/-- Modelled from the spec: `repository.Repository` is not part of the sources; these
are the methods the dispatcher consumes, with a Go `(value, error)` result as `Except` and
a nilable result as `Option`. -/
structure Repository where
  GetChannel : UUID → Except RepoError Channel
  GetUser : UUID → Except RepoError User
  GetChannelPath : UUID → Except RepoError String
  GetFileMeta : UUID → Option FileMeta
  GetUserIDs : UsersQuery → Except RepoError (List UUID)
  GetMuteUserIDs : UUID → Except RepoError (List UUID)
  GetDeviceTokensByUserID : UUID → Except RepoError (List String)
  UnregisterDevice : String → Option RepoError

/-- Everything `processMessageCreated` depends on: the manager's fields and the external
libraries. -/
structure Env where
  repo : Repository
  origin : String
  /-- The provider call `messaging.Send`, given the history of effects so far. -/
  Send : List Effect → Payload → Option SendError
  /-- The parser `uuid.FromString`. -/
  FromString : String → Option UUID
  /-- The printer `UUID.String`. -/
  uuidString : UUID → String
  /-- The clock `time.Now().Unix()`. -/
  now : Nat
  /-- How many times `NextBackOff` yields a duration before `Stop`. -/
  retryBudget : Nat

/-- The function `uuid.FromStringOrNil`. -/
def Env.FromStringOrNil (env : Env) (s : String) : UUID :=
  match env.FromString s with
  | some u => u
  | none => UUID.Nil

/-! ## Delivery worker (`fcm.go` lines 228-258) -/

/-- What the operation given to `backoff.Retry` returns: `nil`, a permanent error
(`backoff.Permanent`), or any other error. -/
inductive OpResult where
  | nil
  | permanent (e : Error)
  | err (e : Error)
  deriving DecidableEq, Repr

/-- The closure given to `backoff.Retry` (lines 230-254): one provider call for
`payload`, the counter increments and the classification of the provider's error.  In the
not-registered case with a successful `UnregisterDevice` the `switch` is left without a
`return`, so control reaches line 252. -/
def sendOperation (env : Env) (payload : Payload) (token : String)
    (tr : List Effect) : OpResult × List Effect :=
  match env.Send tr payload with
  | some e =>
    let tr1 := tr ++ [Effect.send payload (some e), Effect.counterInc "error"]
    match e with
    | .registrationTokenNotRegistered =>
      match env.repo.UnregisterDevice token with
      | some ue => (.permanent (.repo ue), tr1 ++ [Effect.unregisterDevice token (some ue)])
      | none =>
        (.nil, tr1 ++ [Effect.unregisterDevice token none, Effect.counterInc "ok"])
    | .invalidArgument => (.permanent (.fcm e), tr1)
    | .serverUnavailable => (.err (.fcm e), tr1)
    | .internal => (.err (.fcm e), tr1)
    | .messageRateExceeded => (.err (.fcm e), tr1)
    | .unknown => (.err (.fcm e), tr1)
    | .other => (.err (.fcm e), tr1)
  | none => (.nil, tr ++ [Effect.send payload none, Effect.counterInc "ok"])

/-- The loop of `backoff.Retry`: run the operation; stop on `nil` or on a permanent error
(returning the wrapped error); otherwise ask the back-off for the next interval and stop
with the last error when it answers `Stop`, which happens when `budget` is used up. -/
def Retry (op : List Effect → OpResult × List Effect) :
    Nat → List Effect → Option Error × List Effect
  | budget, tr =>
    match op tr with
    | (.nil, tr1) => (none, tr1)
    | (.permanent e, tr1) => (some e, tr1)
    | (.err e, tr1) =>
      match budget with
      | 0 => (some e, tr1)
      | n + 1 => Retry op n tr1

/-- One iteration of the loop over `devs` (lines 229-257): set `payload.Token`, retry the
send, log the final error if any. -/
def sendToToken (env : Env) (payload : Payload) (token : String)
    (tr : List Effect) : List Effect :=
  let payload1 := { payload with Token := token }
  match Retry (sendOperation env payload1 token) env.retryBudget tr with
  | (some _, tr1) => tr1 ++ [Effect.logError "an error occurred in sending fcm"]
  | (none, tr1) => tr1

/-- The value of the counter `fcm_send_count_total{result=label}` after the trace `tr`,
counted from zero. -/
def counterValue (label : String) (tr : List Effect) : Nat :=
  tr.count (Effect.counterInc label)

/-- Whether an effect is a provider call. -/
def Effect.isSend : Effect → Bool
  | .send _ _ => true
  | _ => false

/-- Whether an effect is a call of `UnregisterDevice`. -/
def Effect.isUnregister : Effect → Bool
  | .unregisterDevice _ _ => true
  | _ => false

/-! ## Payload rendering (lines 90-133) -/

/-- The call `strings.ReplaceAll(s, "#", "%23")`: every occurrence of the one-character
pattern is replaced, every other code point is kept. -/
def replaceHash (s : String) : String :=
  String.mk (s.data.flatMap fun c => if c = '#' then ['%', '2', '3'] else [c])

/-- The call `utf8string.NewString(s).Slice(i, j)`: the code points with index in
`[i, j)`. -/
def runeSlice (s : String) (i j : Nat) : String :=
  String.mk ((s.data.drop i).take (j - i))

/-- The call `utf8string.NewString(s).RuneCount()`. -/
def runeCount (s : String) : Nat := s.data.length

/-- Lines 121-123: cut a body of more than 100 code points. -/
def truncateBody (body : String) : String :=
  if runeCount body > 100 then runeSlice body 0 97 ++ "..." else body

/-- Lines 90-92: an empty display name falls back to the name. -/
def withDisplayName (mUser : User) : User :=
  if mUser.DisplayName.length = 0 then { mUser with DisplayName := mUser.Name } else mUser

/-- Lines 95-101: the initial `data` map. -/
def initData (env : Env) (mUser : User) (message : Message) : DataMap :=
  [("title", "traQ"),
   ("icon", env.origin ++ "/api/1.0/public/icon/" ++ replaceHash mUser.Name),
   ("vibration", "[1000, 1000, 1000]"),
   ("tag", "c:" ++ env.uuidString message.ChannelID),
   ("badge", env.origin ++ "/static/badge.png")]

/-- Lines 104-119: title, path and the body before truncation.  `none` when
`GetChannelPath` fails and the function returns. -/
def renderTitle (env : Env) (ch : Channel) (mUser : User) (message : Message)
    (plain : String) (data : DataMap) (tr : List Effect) :
    Option (DataMap × String) × List Effect :=
  if ch.IsDM then
    (some ((data.set "title" ("@" ++ mUser.DisplayName)).set "path" ("/users/" ++ mUser.Name),
      plain), tr)
  else
    match env.repo.GetChannelPath message.ChannelID with
    | .error _ =>
      (none, tr ++ [Effect.getChannelPath message.ChannelID,
        Effect.logError "failed to GetChannelPath"])
    | .ok path =>
      (some ((data.set "title" ("#" ++ path)).set "path" ("/channels/" ++ path),
        mUser.DisplayName ++ ": " ++ plain),
        tr ++ [Effect.getChannelPath message.ChannelID])

/-- Lines 126-133: the scan for the first file embed with a thumbnail. -/
def imageScan (env : Env) (data : DataMap) :
    List EmbeddedInfo → List Effect → DataMap × List Effect
  | [], tr => (data, tr)
  | v :: vs, tr =>
    if v.Typ = "file" then
      let tr1 := tr ++ [Effect.getFileMeta (env.FromStringOrNil v.ID)]
      match env.repo.GetFileMeta (env.FromStringOrNil v.ID) with
      | some f =>
        if f.HasThumbnail then
          (data.set "image" (env.origin ++ "/api/1.0/files/" ++ v.ID ++ "/thumbnail"), tr1)
        else imageScan env data vs tr1
      | none => imageScan env data vs tr1
    else imageScan env data vs tr

/-! ## Recipient computation (lines 136-190) -/

/-- Modelled from the spec: `set.UUIDSet` is not part of the sources; it is a
deduplicated set of user UUIDs. -/
abbrev UUIDSet := Finset UUID

/-- The call `targets.Add(ids...)`. -/
def UUIDSet.Add (s : UUIDSet) (ids : List UUID) : UUIDSet := s ∪ ids.toFinset

/-- The call `targets.Remove(ids...)`. -/
def UUIDSet.Remove (s : UUIDSet) (ids : List UUID) : UUIDSet := s \ ids.toFinset

/-- Lines 164-180: the loop over the embeds of a normal-channel message.  `none` when a
group lookup fails and the function returns. -/
def expandMentions (env : Env) (q : UsersQuery) :
    List EmbeddedInfo → UUIDSet → List Effect → Option UUIDSet × List Effect
  | [], targets, tr => (some targets, tr)
  | v :: vs, targets, tr =>
    if v.Typ = "user" then
      match env.FromString v.ID with
      | some uid => expandMentions env q vs (targets.Add [uid]) tr
      | none => expandMentions env q vs targets tr
    else if v.Typ = "group" then
      let gq := q.GMemberOf (env.FromStringOrNil v.ID)
      match env.repo.GetUserIDs gq with
      | .error _ =>
        (none, tr ++ [Effect.getUserIDs gq, Effect.logError "failed to GetUserGroupMemberIDs"])
      | .ok gs => expandMentions env q vs (targets.Add gs) (tr ++ [Effect.getUserIDs gq])
    else expandMentions env q vs targets tr

/-- The query `repository.UsersQuery{}.Active().NotBot()` of line 137. -/
def activeNotBot : UsersQuery := (({} : UsersQuery).Active).NotBot

/-- Lines 138-189: the `switch` over the channel kind, before the author is removed. -/
def branchTargets (env : Env) (ch : Channel) (message : Message)
    (embedded : List EmbeddedInfo) (tr : List Effect) : Option UUIDSet × List Effect :=
  let targets : UUIDSet := ∅
  let q := activeNotBot
  if ch.IsForced then
    match env.repo.GetUserIDs q with
    | .error _ => (none, tr ++ [Effect.getUserIDs q, Effect.logError "failed to GetUsers"])
    | .ok users => (some (targets.Add users), tr ++ [Effect.getUserIDs q])
  else if !ch.IsPublic then
    match env.repo.GetUserIDs (q.CMemberOf ch.ID) with
    | .error _ =>
      (none, tr ++ [Effect.getUserIDs (q.CMemberOf ch.ID),
        Effect.logError "failed to GetPrivateChannelMemberIDs"])
    | .ok pUsers => (some (targets.Add pUsers), tr ++ [Effect.getUserIDs (q.CMemberOf ch.ID)])
  else
    match env.repo.GetUserIDs (q.SubscriberOf ch.ID) with
    | .error _ =>
      (none, tr ++ [Effect.getUserIDs (q.SubscriberOf ch.ID),
        Effect.logError "failed to GetSubscribingUserIDs"])
    | .ok users =>
      match expandMentions env q embedded (targets.Add users)
          (tr ++ [Effect.getUserIDs (q.SubscriberOf ch.ID)]) with
      | (none, tr1) => (none, tr1)
      | (some targets1, tr1) =>
        match env.repo.GetMuteUserIDs message.ChannelID with
        | .error _ =>
          (none, tr1 ++ [Effect.getMuteUserIDs message.ChannelID,
            Effect.logError "failed to GetMuteUserIDs"])
        | .ok muted =>
          (some (targets1.Remove muted), tr1 ++ [Effect.getMuteUserIDs message.ChannelID])

/-- Lines 136-190: the target set, with the author removed at the end. -/
def computeTargets (env : Env) (ch : Channel) (message : Message)
    (embedded : List EmbeddedInfo) (tr : List Effect) : Option UUIDSet × List Effect :=
  match branchTargets env ch message embedded tr with
  | (none, tr1) => (none, tr1)
  | (some targets, tr1) => (some (targets.Remove [message.UserID]), tr1)

/-! ## Fan-out (lines 193-260) -/

/-- The constant `messageTTLSeconds`. -/
def messageTTLSeconds : Nat := 60 * 60 * 24 * 2

/-- Lines 201-227: the payload shared by all tokens of one user; a key missing from the
map reads as the empty string. -/
def mkPayload (env : Env) (data : DataMap) : Payload :=
  { Token := ""
    Data := data
    AndroidPriority := "high"
    AndroidTTL := messageTTLSeconds
    APNSExpiration := toString (env.now + messageTTLSeconds)
    ApsAlertTitle := (data.get "title").getD ""
    ApsAlertBody := (data.get "body").getD ""
    ApsSound := "default"
    ApsThreadID := (data.get "tag").getD ""
    WebpushTTL := toString messageTTLSeconds }

/-- Lines 194-259: the work done for one target user. -/
def sendToUser (env : Env) (data : DataMap) (u : UUID) (tr : List Effect) : List Effect :=
  match env.repo.GetDeviceTokensByUserID u with
  | .error _ =>
    tr ++ [Effect.getDeviceTokensByUserID u, Effect.logError "failed to GetDeviceTokensByUserID"]
  | .ok devs =>
    devs.foldl (fun t token => sendToToken env (mkPayload env data) token t)
      (tr ++ [Effect.getDeviceTokensByUserID u])

/-- The members of a target set in increasing order. -/
def UUIDSet.toSortedList (s : UUIDSet) : List UUID :=
  Quot.liftOn s.val (List.insertionSort (· ≤ ·)) (fun _ _ h =>
    List.eq_of_perm_of_sorted
      ((List.perm_insertionSort _ _).trans (h.trans (List.perm_insertionSort _ _).symm))
      (List.sorted_insertionSort _ _) (List.sorted_insertionSort _ _))

/-- Lines 193-260: one goroutine per target.  The goroutines are run here one after the
other, in increasing order of user id. -/
def fanOut (env : Env) (data : DataMap) (targets : UUIDSet) (tr : List Effect) :
    List Effect :=
  targets.toSortedList.foldl (fun t u => sendToUser env data u t) tr

/-! ## `processMessageCreated` -/

/-- What one run of `processMessageCreated` did: the trace of effects, and the values of
the local variables `body` (line 120, before truncation), `data` (line 134) and `targets`
(line 191) when the run got that far. -/
structure Outcome where
  trace : List Effect
  body : Option String
  data : Option DataMap
  targets : Option UUIDSet

/-- The method `FCMManager.processMessageCreated` (lines 74-261). -/
def processMessageCreated (env : Env) (message : Message) (plain : String)
    (embedded : List EmbeddedInfo) : Outcome :=
  match env.repo.GetChannel message.ChannelID with
  | .error _ =>
    ⟨[Effect.getChannel message.ChannelID, Effect.logError "failed to GetChannel"],
      none, none, none⟩
  | .ok ch =>
    match env.repo.GetUser message.UserID with
    | .error _ =>
      ⟨[Effect.getChannel message.ChannelID, Effect.getUser message.UserID,
        Effect.logError "failed to GetUser"], none, none, none⟩
    | .ok mUser0 =>
      let mUser := withDisplayName mUser0
      match renderTitle env ch mUser message plain (initData env mUser message)
          [Effect.getChannel message.ChannelID, Effect.getUser message.UserID] with
      | (none, tr1) => ⟨tr1, none, none, none⟩
      | (some (data1, body), tr1) =>
        let data2 := data1.set "body" (truncateBody body)
        match imageScan env data2 embedded tr1 with
        | (data3, tr2) =>
          match computeTargets env ch message embedded tr2 with
          | (none, tr3) => ⟨tr3, some body, some data3, none⟩
          | (some targets, tr3) =>
            ⟨fanOut env data3 targets tr3, some body, some data3, some targets⟩

/-! ## The listener goroutine (lines 62-70) -/

/-- A dynamically typed value stored in `ev.Fields`.  A value of type `*model.Message` is
a pointer that may be nil (`none`), and a value of type `[]*message.EmbeddedInfo` is a
slice of pointers each of which may be nil; both pass the type assertions of lines
65-67. -/
inductive FieldValue where
  | message (m : Option Message)
  | string (s : String)
  | embedded (e : List (Option EmbeddedInfo))
  | other (typeName : String)
  deriving DecidableEq, Repr

/-- A `hub.Message`: its `Fields` map, as an association list. -/
structure Event where
  Fields : List (String × FieldValue)
  deriving DecidableEq, Repr

/-- The map lookup `ev.Fields[k]`; `none` is the nil interface of a missing key. -/
def Event.field (ev : Event) (k : String) : Option FieldValue :=
  (ev.Fields.find? fun p => p.1 = k).map Prod.snd

/-- The single-value type assertion `x.(*model.Message)`; the outer `none` is a run-time
panic, the inner `none` a nil pointer of the asserted type. -/
def assertMessage : Option FieldValue → Option (Option Message)
  | some (.message m) => some m
  | _ => none

/-- The single-value type assertion `x.(string)`; `none` is a run-time panic. -/
def assertString : Option FieldValue → Option String
  | some (.string s) => some s
  | _ => none

/-- The single-value type assertion `x.([]*message.EmbeddedInfo)`; `none` is a run-time
panic. -/
def assertEmbedded : Option FieldValue → Option (List (Option EmbeddedInfo))
  | some (.embedded e) => some e
  | _ => none

/-- Whether the image scan of lines 126-133 dereferences a nil element (`v.Type` at line
127) before it ends or breaks. -/
def imageScanPanics (env : Env) : List (Option EmbeddedInfo) → Bool
  | [] => false
  | none :: _ => true
  | some v :: vs =>
    if v.Typ = "file" then
      match env.repo.GetFileMeta (env.FromStringOrNil v.ID) with
      | some f => if f.HasThumbnail then false else imageScanPanics env vs
      | none => imageScanPanics env vs
    else imageScanPanics env vs

/-- Whether the mention loop of lines 164-180 dereferences a nil element (`v.Type` at line
165) before it ends or returns on a failed group lookup. -/
def expandMentionsPanics (env : Env) (q : UsersQuery) : List (Option EmbeddedInfo) → Bool
  | [] => false
  | none :: _ => true
  | some v :: vs =>
    if v.Typ = "user" then expandMentionsPanics env q vs
    else if v.Typ = "group" then
      match env.repo.GetUserIDs (q.GMemberOf (env.FromStringOrNil v.ID)) with
      | .error _ => false
      | .ok _ => expandMentionsPanics env q vs
    else expandMentionsPanics env q vs

/-- Whether `processMessageCreated` called with these pointers ends in a nil-pointer
dereference: a nil message at line 75 (`message.ID`); a nil element of `embedded` at line
127 when the run reaches the image scan and the scan reaches the element, or at line 165
when the channel is a normal one, the subscribers were read and the mention loop reaches
the element.  A run that returns earlier on a failed lookup does not panic. -/
def processPanics (env : Env) : Option Message → List (Option EmbeddedInfo) → Bool
  | none, _ => true
  | some message, embedded =>
    match env.repo.GetChannel message.ChannelID with
    | .error _ => false
    | .ok ch =>
      match env.repo.GetUser message.UserID with
      | .error _ => false
      | .ok _ =>
        match (if ch.IsDM then Except.ok "" else env.repo.GetChannelPath message.ChannelID) with
        | .error _ => false
        | .ok _ =>
          if imageScanPanics env embedded then true
          else if ch.IsForced then false
          else if !ch.IsPublic then false
          else
            match env.repo.GetUserIDs (activeNotBot.SubscriberOf ch.ID) with
            | .error _ => false
            | .ok _ => expandMentionsPanics env activeNotBot embedded

/-- How the listener goroutine ended. -/
inductive ListenerEnd where
  /-- The hub closed the channel and the loop ended. -/
  | closed
  /-- A type assertion of lines 65-67 panicked. -/
  | assertionPanic
  /-- A goroutine started at line 68 dereferenced a nil pointer. -/
  | nilDereference
  deriving DecidableEq, Repr

/-- What the listener goroutine did with a sequence of events: the arguments of the
`processMessageCreated` goroutines it started, in order, and how it ended.  A panic is not
recovered anywhere, so it ends the process and nothing is received afterwards. -/
structure ListenerRun where
  started : List (Option Message × String × List (Option EmbeddedInfo))
  ended : ListenerEnd
  deriving DecidableEq, Repr

/-- The loop `for ev := range sub.Receiver` of lines 64-69 over the events delivered by
the hub.  The goroutine started at line 68 is run at once, so that a nil dereference in it
ends the process before the next event is received. -/
def listener (env : Env) : List Event → ListenerRun
  | [] => ⟨[], .closed⟩
  | ev :: rest =>
    match assertMessage (ev.field "message") with
    | none => ⟨[], .assertionPanic⟩
    | some m =>
      match assertString (ev.field "plain") with
      | none => ⟨[], .assertionPanic⟩
      | some p =>
        match assertEmbedded (ev.field "embedded") with
        | none => ⟨[], .assertionPanic⟩
        | some e =>
          if processPanics env m e then ⟨[(m, p, e)], .nilDereference⟩
          else
            let run := listener env rest
            ⟨(m, p, e) :: run.started, run.ended⟩

/-- Whether the three fields of an event are present with the asserted types. -/
def Event.wellTyped (ev : Event) : Bool :=
  (assertMessage (ev.field "message")).isSome &&
  (assertString (ev.field "plain")).isSome &&
  (assertEmbedded (ev.field "embedded")).isSome

/-! ## A table-backed repository for concrete scenarios -/

/-- Modelled from the spec: the repository implementation is not part of the sources.  A
row of the user table with the relations the dispatcher queries: subscriptions,
private-channel memberships, group memberships, muted channels and device tokens. -/
structure UserRow where
  ID : UUID
  Name : String
  DisplayName : String
  Active : Bool
  Bot : Bool
  Subscribes : List UUID
  Channels : List UUID
  Groups : List UUID
  Mutes : List UUID
  Devices : List String
  deriving DecidableEq, Repr

/-- Modelled from the spec: a snapshot of the database, with the channels and their
paths, the files, and the tokens whose unregistration fails. -/
structure Table where
  Users : List UserRow
  Channels : List (Channel × String)
  Files : List (UUID × FileMeta)
  UnregisterFails : List String

/-- Modelled from the spec: whether a user row passes the composable filters of a
`UsersQuery`. -/
def UserRow.passes (r : UserRow) (q : UsersQuery) : Bool :=
  (match q.IsBot with | some b => r.Bot == b | none => true) &&
  (match q.IsActive with | some b => r.Active == b | none => true) &&
  (match q.IsCMemberOf with | some c => r.Channels.contains c | none => true) &&
  (match q.IsGMemberOf with | some g => r.Groups.contains g | none => true) &&
  (match q.IsSubscriberOf with | some c => r.Subscribes.contains c | none => true)

/-- Modelled from the spec: the repository interface of section 6.3 answered from a
table; a lookup of an unknown id is an error. -/
def Table.toRepository (t : Table) : Repository where
  GetChannel id :=
    match t.Channels.find? fun c => c.1.ID = id with
    | some c => .ok c.1
    | none => .error "not found"
  GetUser id :=
    match t.Users.find? fun r => r.ID = id with
    | some r => .ok ⟨r.ID, r.Name, r.DisplayName⟩
    | none => .error "not found"
  GetChannelPath id :=
    match t.Channels.find? fun c => c.1.ID = id with
    | some c => .ok c.2
    | none => .error "not found"
  GetFileMeta id := (t.Files.find? fun f => f.1 = id).map Prod.snd
  GetUserIDs q := .ok ((t.Users.filter fun r => r.passes q).map UserRow.ID)
  GetMuteUserIDs id := .ok ((t.Users.filter fun r => r.Mutes.contains id).map UserRow.ID)
  GetDeviceTokensByUserID u :=
    match t.Users.find? fun r => r.ID = u with
    | some r => .ok r.Devices
    | none => .error "not found"
  UnregisterDevice token := if token ∈ t.UnregisterFails then some "delete failed" else none

/-- The textual form of the ids used in the scenarios. -/
def scenarioIds : List (String × UUID) :=
  [("A", 1), ("B", 2), ("C", 3), ("X", 4), ("G", 50), ("f1", 71), ("f2", 72), ("ch", 10)]

/-- The id parser of the scenarios. -/
def scenarioFromString (s : String) : Option UUID :=
  (scenarioIds.find? fun p => p.1 = s).map Prod.snd

/-- The id printer of the scenarios. -/
def scenarioString (u : UUID) : String :=
  ((scenarioIds.find? fun p => p.2 = u).map Prod.fst).getD "?"

/-- An environment over a table, with a given provider. -/
def scenarioEnv (t : Table) (send : List Effect → Payload → Option SendError)
    (budget : Nat) : Env where
  repo := t.toRepository
  origin := "https://q.example"
  Send := send
  FromString := scenarioFromString
  uuidString := scenarioString
  now := 1000
  retryBudget := budget

/-- A user row with default flags: active, not a bot, no relations. -/
def plainUser (id : UUID) (name displayName : String) : UserRow :=
  ⟨id, name, displayName, true, false, [], [], [], [], []⟩

/-- A provider that always succeeds. -/
def sendOk : List Effect → Payload → Option SendError := fun _ _ => none

/-- A provider that reports every token as not registered. -/
def sendNotRegistered : List Effect → Payload → Option SendError :=
  fun _ _ => some .registrationTokenNotRegistered

/-- A provider that fails with `unavailable` on its first call and reports the token as not
registered afterwards. -/
def sendUnavailableThenNotRegistered : List Effect → Payload → Option SendError :=
  fun tr _ => if tr.any Effect.isSend then some .registrationTokenNotRegistered
    else some .serverUnavailable

/-- One user `alice` with the device token `T1`; unregistering `T9` fails. -/
def deliveryTable : Table :=
  ⟨[{ plainUser 1 "alice" "" with Devices := ["T1"] }], [], [], ["T9"]⟩

/-- The payload of the delivery scenarios, addressed to `T1`. -/
def deliveryPayload : Payload :=
  { mkPayload (scenarioEnv deliveryTable sendOk 3) [("title", "#general")] with Token := "T1" }

/-! ## The recipient set in the words of the specification -/

/-- The set `U`: the ids of all `user` embeds whose id parses as a UUID. -/
def mentionedUsers (env : Env) (embedded : List EmbeddedInfo) : Finset UUID :=
  (embedded.filterMap fun v => if v.Typ = "user" then env.FromString v.ID else none).toFinset

/-- The members a `group` embed stands for: the active non-bot members of the group, as
answered by the repository (nothing when the lookup fails). -/
def groupMembers (env : Env) (v : EmbeddedInfo) : List UUID :=
  match env.repo.GetUserIDs (activeNotBot.GMemberOf (env.FromStringOrNil v.ID)) with
  | .ok gs => gs
  | .error _ => []

/-- The set `G`: the union over all `group` embeds of the members of that group. -/
def mentionedGroupMembers (env : Env) (embedded : List EmbeddedInfo) : Finset UUID :=
  (embedded.flatMap fun v => if v.Typ = "group" then groupMembers env v else []).toFinset

/-- The normal-channel recipient formula `((S ∪ U ∪ G) \ M) \ {author}`. -/
def normalTargetsSpec (env : Env) (message : Message) (embedded : List EmbeddedInfo)
    (subscribers muted : List UUID) : Finset UUID :=
  ((subscribers.toFinset ∪ mentionedUsers env embedded ∪ mentionedGroupMembers env embedded) \
    muted.toFinset) \ {message.UserID}

/-- Whether an effect belongs to the fan-out: a device-token lookup, a provider call, a
counter increment, an unregistration or a log line. -/
def Effect.isDelivery : Effect → Bool
  | .getDeviceTokensByUserID _ => true
  | .send _ _ => true
  | .counterInc _ => true
  | .unregisterDevice _ _ => true
  | .logError _ => true
  | _ => false

/-! ## Scenarios -/

/-- The public channel `gps/random` with id 10. -/
def publicChannel : Channel := ⟨10, true, false, false⟩

/-- Scenario 2 of the specification: `A` and `B` subscribe to the channel, `B` has muted
it, `C` is the only member of group `G` (id 50), `X` is unrelated. -/
def normalTable : Table :=
  ⟨[{ plainUser 1 "alice" "" with Subscribes := [10], Devices := ["T1"] },
    { plainUser 2 "bob" "Bob" with Subscribes := [10], Mutes := [10], Devices := ["T2"] },
    { plainUser 3 "carol" "" with Groups := [50], Devices := ["T3"] },
    plainUser 4 "xavier" ""],
   [(publicChannel, "gps/random")], [], []⟩

/-- As `normalTable`, but the author `A` and the muting user `B` are also members of the
group `G`. -/
def mentionTable : Table :=
  ⟨[{ plainUser 1 "alice" "" with Subscribes := [10], Groups := [50], Devices := ["T1"] },
    { plainUser 2 "bob" "Bob" with
        Subscribes := [10], Groups := [50], Mutes := [10], Devices := ["T2"] },
    { plainUser 3 "carol" "" with Groups := [50], Devices := ["T3"] }],
   [(publicChannel, "gps/random")], [], []⟩

/-- Scenario 5 of the specification: a private channel with members `A` and `B`; `X` is
not a member and has muted nothing; `B` has muted the channel. -/
def privateTable : Table :=
  ⟨[{ plainUser 1 "alice" "" with Channels := [10], Devices := ["T1"] },
    { plainUser 2 "bob" "Bob" with Channels := [10], Mutes := [10], Devices := ["T2"] },
    plainUser 4 "xavier" ""],
   [(⟨10, false, false, false⟩, "secret")], [], []⟩

/-- Scenario 1 of the specification: a forced private channel; `A` and `B` are active
users, `B` has muted the channel, there is a bot and a deactivated user. -/
def forcedTable : Table :=
  ⟨[{ plainUser 1 "alice" "" with Devices := ["T1"] },
    { plainUser 2 "bob" "Bob" with Mutes := [10], Devices := ["T2"] },
    { plainUser 5 "robot" "" with Bot := true },
    { plainUser 6 "gone" "" with Active := false }],
   [(⟨10, false, true, false⟩, "announce")], [], []⟩

/-- A message by `A` (id 1) in channel 10. -/
def messageByA : Message := ⟨100, 1, 10⟩

/-! ## The image and the listener in the words of the specification -/

/-- Whether an embed is a `file` embed that refers to a file whose metadata exists and has
a thumbnail. -/
def hasThumbnail (env : Env) (v : EmbeddedInfo) : Bool :=
  decide (v.Typ = "file") &&
    (match env.repo.GetFileMeta (env.FromStringOrNil v.ID) with
     | some f => f.HasThumbnail
     | none => false)

/-- The thumbnail URL of a file embed. -/
def thumbnailURL (env : Env) (v : EmbeddedInfo) : String :=
  env.origin ++ "/api/1.0/files/" ++ v.ID ++ "/thumbnail"

/-- The display name `D` of the specification: the display name if it is not empty, the
name otherwise. -/
def displayNameOf (u : User) : String :=
  if u.DisplayName = "" then u.Name else u.DisplayName

/-- The arguments an event carries when its three fields are well typed. -/
def Event.args (ev : Event) :
    Option (Option Message × String × List (Option EmbeddedInfo)) :=
  match assertMessage (ev.field "message"), assertString (ev.field "plain"),
    assertEmbedded (ev.field "embedded") with
  | some m, some p, some e => some (m, p, e)
  | _, _, _ => none

/-- A direct-message channel (id 20) between `alice` and `bob`. -/
def dmTable : Table :=
  ⟨[{ plainUser 1 "alice" "" with Devices := ["T1"] },
    { plainUser 2 "bob" "Bob" with Channels := [20], Devices := ["T2"] }],
   [(⟨20, false, false, true⟩, "")], [], []⟩

/-- A message by `alice` in the direct-message channel. -/
def dmMessage : Message := ⟨102, 1, 20⟩

/-- A message by `bob` (id 2) in the public channel `gps/random`. -/
def messageByB : Message := ⟨101, 2, 10⟩

/-- As `normalTable`, with two files: `f1` has no thumbnail, `f2` has one. -/
def fileTable : Table :=
  { normalTable with Files := [(71, ⟨false⟩), (72, ⟨true⟩)] }

/-- The embeds of a message with the two files and a user mention in between. -/
def fileEmbeds : List EmbeddedInfo := [⟨"file", "f1"⟩, ⟨"user", "B"⟩, ⟨"file", "f2"⟩]

/-- The data map rendered for a message of `A` with the embeds `fileEmbeds`. -/
def fileData : DataMap :=
  ((processMessageCreated (scenarioEnv fileTable sendOk 3) messageByA "hi" fileEmbeds).data).getD
    []

/-- A well-typed `MessageCreated` event. -/
def goodEvent : Event :=
  ⟨[("message", .message (some messageByA)), ("plain", .string "hi"),
    ("embedded", .embedded [])]⟩

/-- An event whose `plain` field holds a value of another type. -/
def mistypedEvent : Event :=
  ⟨[("message", .message (some messageByA)), ("plain", .other "int"),
    ("embedded", .embedded [])]⟩

/-- An event without an `embedded` field. -/
def incompleteEvent : Event :=
  ⟨[("message", .message (some messageByA)), ("plain", .string "hi")]⟩

/-- An event whose `message` field holds a nil pointer of type `*model.Message`. -/
def nilMessageEvent : Event :=
  ⟨[("message", .message none), ("plain", .string "hi"), ("embedded", .embedded [])]⟩

/-- An event whose `embedded` slice holds a nil pointer after a user mention. -/
def nilEmbedEvent : Event :=
  ⟨[("message", .message (some messageByA)), ("plain", .string "hi"),
    ("embedded", .embedded [some ⟨"user", "B"⟩, none])]⟩

/-- A plain text of 101 code points. -/
def longPlain : String := String.mk (List.replicate 101 'a')

/-- The data map rendered for `longPlain` sent by `alice` in the direct-message channel. -/
def longData : DataMap :=
  ((processMessageCreated (scenarioEnv dmTable sendOk 3) dmMessage longPlain []).data).getD []

/-! ## Failure, retries and fan-out in the words of the specification -/

/-- Whether a repository lookup failed. -/
def failed {α : Type} : Except RepoError α → Bool
  | .error _ => true
  | .ok _ => false

/-- Whether some repository lookup made before the sending fails: `GetChannel`,
`GetUser`, `GetChannelPath` outside direct messages, `GetUserIDs` for the selected branch
or for a mentioned group of a normal channel, `GetMuteUserIDs` on a normal channel. -/
def preSendFailure (env : Env) (message : Message) (embedded : List EmbeddedInfo) : Bool :=
  match env.repo.GetChannel message.ChannelID with
  | .error _ => true
  | .ok ch =>
    failed (env.repo.GetUser message.UserID) ||
    (!ch.IsDM && failed (env.repo.GetChannelPath message.ChannelID)) ||
    (if ch.IsForced then failed (env.repo.GetUserIDs activeNotBot)
     else if !ch.IsPublic then failed (env.repo.GetUserIDs (activeNotBot.CMemberOf ch.ID))
     else
       failed (env.repo.GetUserIDs (activeNotBot.SubscriberOf ch.ID)) ||
       embedded.any (fun v => decide (v.Typ = "group") &&
         failed (env.repo.GetUserIDs (activeNotBot.GMemberOf (env.FromStringOrNil v.ID)))) ||
       failed (env.repo.GetMuteUserIDs message.ChannelID))

/-- Whether an effect belongs to the sending: a device-token lookup, a provider call, a
counter increment or an unregistration. -/
def Effect.isSending : Effect → Bool
  | .getDeviceTokensByUserID _ => true
  | .send _ _ => true
  | .counterInc _ => true
  | .unregisterDevice _ _ => true
  | _ => false

/-- Whether an effect is a device-token lookup. -/
def Effect.isDeviceLookup : Effect → Bool
  | .getDeviceTokensByUserID _ => true
  | _ => false

/-- Whether an effect is a counter increment. -/
def Effect.isCounterInc : Effect → Bool
  | .counterInc _ => true
  | _ => false

/-- Whether a provider error is transient: neither invalid-argument nor
not-registered. -/
def SendError.isTransient (e : SendError) : Bool :=
  decide (e ≠ .invalidArgument) && decide (e ≠ .registrationTokenNotRegistered)

/-- The effects of a run of failed attempts with the given provider errors: each is a
provider call followed by one `error` count. -/
def failedAttempts (payload : Payload) (errs : List SendError) : List Effect :=
  errs.flatMap fun e => [Effect.send payload (some e), Effect.counterInc "error"]

/-- The number of provider calls in a trace. -/
def providerCalls (tr : List Effect) : Nat := (tr.filter Effect.isSend).length

/-- The tokens the provider was called with, in order. -/
def sentTokens (tr : List Effect) : List String :=
  tr.filterMap fun e => match e with
    | .send p _ => some p.Token
    | _ => none

/-- The device tokens of a user as answered by `GetDeviceTokensByUserID`; none when the
lookup fails. -/
def tokensOf (env : Env) (u : UUID) : List String :=
  match env.repo.GetDeviceTokensByUserID u with
  | .ok devs => devs
  | .error _ => []

/-- A provider that is unavailable for its first two calls and succeeds afterwards. -/
def sendOkAfterTwo : List Effect → Payload → Option SendError :=
  fun tr _ => if providerCalls tr < 2 then some .serverUnavailable else none

/-- A provider that rejects every message as an invalid argument. -/
def sendInvalid : List Effect → Payload → Option SendError :=
  fun _ _ => some .invalidArgument

/-- The repository of `normalTable`, except that the lookup of the members of group `G`
(id 50) fails. -/
def groupFailRepository : Repository :=
  { normalTable.toRepository with
    GetUserIDs := fun q =>
      if q.IsGMemberOf = some 50 then .error "db down" else normalTable.toRepository.GetUserIDs q }

/-- The environment of `normalTable` with the failing group lookup. -/
def groupFailEnv : Env :=
  { scenarioEnv normalTable sendOk 3 with repo := groupFailRepository }

/-- A forced channel with four active users: the author `A`, `B` with the token `T2`,
`C` without device and `X` with the token `T4`. -/
def fanOutTable : Table :=
  ⟨[{ plainUser 1 "alice" "" with Devices := ["T1"] },
    { plainUser 2 "bob" "Bob" with Devices := ["T2"] },
    plainUser 3 "carol" "",
    { plainUser 4 "xavier" "" with Devices := ["T4"] }],
   [(⟨10, false, true, false⟩, "announce")], [], []⟩

/-- The repository of `fanOutTable`, except that the device lookup of `B` fails. -/
def deviceFailRepository : Repository :=
  { fanOutTable.toRepository with
    GetDeviceTokensByUserID := fun u =>
      if u = 2 then .error "db down" else fanOutTable.toRepository.GetDeviceTokensByUserID u }

/-- The environment of `fanOutTable` with the failing device lookup. -/
def deviceFailEnv : Env :=
  { scenarioEnv fanOutTable sendOk 3 with repo := deviceFailRepository }

/-- The public channel `gps/random` with an author whose name is `foo#1`. -/
def hashTable : Table :=
  ⟨[{ plainUser 1 "foo#1" "" with Devices := ["T1"] },
    { plainUser 2 "bob" "Bob" with Subscribes := [10], Devices := ["T2"] }],
   [(publicChannel, "gps/random")], [], []⟩

/-- The data map rendered for a message of `foo#1` in the channel `gps/random`. -/
def hashData : DataMap :=
  ((processMessageCreated (scenarioEnv hashTable sendOk 3) messageByA "hi" []).data).getD []

/-- The payload of one event for one device token (lines 201-229). -/
def payloadFor (env : Env) (data : DataMap) (token : String) : Payload :=
  { mkPayload env data with Token := token }

/-- What the effects of the work for the target user `u` look like: one device-token
lookup, for `u`; provider calls only with the payload of the event and a token of `u`; at
least one call for every token of `u`; and neither a provider call nor a counter
increment when `u` has no token, be it that the lookup failed or that the list is
empty. -/
def servesUser (env : Env) (data : DataMap) (u : UUID) (seg : List Effect) : Prop :=
  seg.filter Effect.isDeviceLookup = [Effect.getDeviceTokensByUserID u] ∧
  (∀ p r, Effect.send p r ∈ seg → p = payloadFor env data p.Token ∧ p.Token ∈ tokensOf env u) ∧
  (∀ tok ∈ tokensOf env u, tok ∈ sentTokens seg) ∧
  (tokensOf env u = [] → providerCalls seg = 0 ∧ ∀ label, counterValue label seg = 0)

end FCM

/-! # Theorems -/

namespace FCM

/-! ## Delivery worker -/

theorem Retry_nil {op : List Effect → OpResult × List Effect} {tr tr1 : List Effect}
    (h : op tr = (.nil, tr1)) (budget : Nat) : Retry op budget tr = (none, tr1) := by
  cases budget <;> simp [Retry, h]

theorem Retry_permanent {op : List Effect → OpResult × List Effect} {tr tr1 : List Effect}
    {e : Error} (h : op tr = (.permanent e, tr1)) (budget : Nat) :
    Retry op budget tr = (some e, tr1) := by
  cases budget <;> simp [Retry, h]

theorem Retry_err_zero {op : List Effect → OpResult × List Effect} {tr tr1 : List Effect}
    {e : Error} (h : op tr = (.err e, tr1)) : Retry op 0 tr = (some e, tr1) := by
  simp [Retry, h]

theorem Retry_err_succ {op : List Effect → OpResult × List Effect} {tr tr1 : List Effect}
    {e : Error} (h : op tr = (.err e, tr1)) (n : Nat) :
    Retry op (n + 1) tr = Retry op n tr1 := by
  rw [Retry, h]

/-- The three shapes of one attempt: success, a stopping failure, a retried failure. -/
theorem sendOperation_cases (env : Env) (payload : Payload) (token : String)
    (tr : List Effect) :
    (env.Send tr payload = none ∧
      sendOperation env payload token tr =
        (.nil, tr ++ [Effect.send payload none, Effect.counterInc "ok"])) ∨
    (env.Send tr payload = some .registrationTokenNotRegistered ∧
      sendOperation env payload token tr =
        ((match env.repo.UnregisterDevice token with
          | none => OpResult.nil
          | some ue => OpResult.permanent (.repo ue)),
         tr ++ Effect.send payload (some .registrationTokenNotRegistered) ::
           Effect.counterInc "error" ::
           Effect.unregisterDevice token (env.repo.UnregisterDevice token) ::
           (match env.repo.UnregisterDevice token with
            | none => [Effect.counterInc "ok"]
            | some _ => []))) ∨
    (env.Send tr payload = some .invalidArgument ∧
      sendOperation env payload token tr =
        (.permanent (.fcm .invalidArgument),
         tr ++ [Effect.send payload (some .invalidArgument), Effect.counterInc "error"])) ∨
    (∃ e, e ≠ .registrationTokenNotRegistered ∧ e ≠ .invalidArgument ∧
      env.Send tr payload = some e ∧
      sendOperation env payload token tr =
        (.err (.fcm e), tr ++ [Effect.send payload (some e), Effect.counterInc "error"])) := by
  unfold sendOperation
  cases hS : env.Send tr payload with
  | none => simp
  | some e =>
    cases e <;> simp
    cases hU : env.repo.UnregisterDevice token <;> simp

/-- Where an element can sit in a list that starts with two known elements. -/
theorem cons_cons_eq_append_cons {α : Type} {a b x : α} {rest pre post : List α}
    (h : a :: b :: rest = pre ++ x :: post) :
    (pre = [] ∧ a = x ∧ post = b :: rest) ∨ (pre = [a] ∧ b = x ∧ post = rest) ∨
      ∃ pre1, pre = a :: b :: pre1 ∧ rest = pre1 ++ x :: post := by
  cases pre with
  | nil =>
    simp only [List.nil_append, List.cons.injEq] at h
    exact Or.inl ⟨rfl, h.1, h.2.symm⟩
  | cons p pre1 =>
    cases pre1 with
    | nil =>
      simp only [List.cons_append, List.nil_append, List.cons.injEq] at h
      obtain ⟨h1, h2, h3⟩ := h
      subst h1
      exact Or.inr (Or.inl ⟨rfl, h2, h3.symm⟩)
    | cons p2 pre2 =>
      simp only [List.cons_append, List.cons.injEq] at h
      obtain ⟨h1, h2, h3⟩ := h
      subst h1 h2
      exact Or.inr (Or.inr ⟨pre2, rfl, h3⟩)

/-- A retried send only appends to the trace. -/
theorem Retry_extends (env : Env) (payload : Payload) (token : String) :
    ∀ (budget : Nat) (tr : List Effect),
      ∃ new, (Retry (sendOperation env payload token) budget tr).2 = tr ++ new := by
  intro budget
  induction budget with
  | zero =>
    intro tr
    rcases sendOperation_cases env payload token tr with
      ⟨_, hop⟩ | ⟨_, hop⟩ | ⟨_, hop⟩ | ⟨e, _, _, _, hop⟩
    · exact ⟨_, by rw [Retry_nil hop]⟩
    · cases hU : env.repo.UnregisterDevice token with
      | none => rw [hU] at hop; exact ⟨_, by rw [Retry_nil hop]⟩
      | some ue => rw [hU] at hop; exact ⟨_, by rw [Retry_permanent hop]⟩
    · exact ⟨_, by rw [Retry_permanent hop]⟩
    · exact ⟨_, by rw [Retry_err_zero hop]⟩
  | succ n ih =>
    intro tr
    rcases sendOperation_cases env payload token tr with
      ⟨_, hop⟩ | ⟨_, hop⟩ | ⟨_, hop⟩ | ⟨e, _, _, _, hop⟩
    · exact ⟨_, by rw [Retry_nil hop]⟩
    · cases hU : env.repo.UnregisterDevice token with
      | none => rw [hU] at hop; exact ⟨_, by rw [Retry_nil hop]⟩
      | some ue => rw [hU] at hop; exact ⟨_, by rw [Retry_permanent hop]⟩
    · exact ⟨_, by rw [Retry_permanent hop]⟩
    · obtain ⟨new, hnew⟩ := ih (tr ++ [Effect.send payload (some e), Effect.counterInc "error"])
      exact ⟨_, by rw [Retry_err_succ hop, hnew, List.append_assoc]⟩

/-- What follows a not-registered report inside one `backoff.Retry`: the error count, one
`UnregisterDevice` for the token, and nothing else but the `ok` count of line 252 when the
unregistration succeeded. -/
theorem Retry_after_notRegistered (env : Env) (payload : Payload) (token : String) :
    ∀ (budget : Nat) (tr pre post : List Effect),
      (Retry (sendOperation env payload token) budget tr).2 =
        tr ++ pre ++ Effect.send payload (some .registrationTokenNotRegistered) :: post →
      post = Effect.counterInc "error" ::
          Effect.unregisterDevice token (env.repo.UnregisterDevice token) ::
          (match env.repo.UnregisterDevice token with
           | none => [Effect.counterInc "ok"]
           | some _ => []) ∧
      (∀ e ∈ pre, e.isUnregister = false) ∧
      (Retry (sendOperation env payload token) budget tr).1 =
        (env.repo.UnregisterDevice token).map Error.repo ∧
      (sendOperation env payload token (tr ++ pre)).1 =
        (match env.repo.UnregisterDevice token with
         | none => OpResult.nil
         | some ue => OpResult.permanent (.repo ue)) := by
  have stop : ∀ (budget : Nat) (tr pre post : List Effect),
      (Retry (sendOperation env payload token) budget tr).2 =
        tr ++ pre ++ Effect.send payload (some .registrationTokenNotRegistered) :: post →
      (env.Send tr payload = none ∨ env.Send tr payload = some .registrationTokenNotRegistered ∨
        env.Send tr payload = some .invalidArgument) →
      post = Effect.counterInc "error" ::
          Effect.unregisterDevice token (env.repo.UnregisterDevice token) ::
          (match env.repo.UnregisterDevice token with
           | none => [Effect.counterInc "ok"]
           | some _ => []) ∧
      (∀ e ∈ pre, e.isUnregister = false) ∧
      (Retry (sendOperation env payload token) budget tr).1 =
        (env.repo.UnregisterDevice token).map Error.repo ∧
      (sendOperation env payload token (tr ++ pre)).1 =
        (match env.repo.UnregisterDevice token with
         | none => OpResult.nil
         | some ue => OpResult.permanent (.repo ue)) := by
    intro budget tr pre post h hS
    rcases sendOperation_cases env payload token tr with
      ⟨hS1, hop⟩ | ⟨hS1, hop⟩ | ⟨hS1, hop⟩ | ⟨e, he1, he2, hS1, hop⟩
    · rw [Retry_nil hop, List.append_assoc] at h
      rcases cons_cons_eq_append_cons (List.append_cancel_left h) with
        ⟨_, h1, _⟩ | ⟨_, h1, _⟩ | ⟨_, _, h1⟩
      · simp at h1
      · simp at h1
      · simp at h1
    · cases hU : env.repo.UnregisterDevice token with
      | none =>
        rw [hU] at hop
        rw [Retry_nil hop, List.append_assoc] at h
        rcases cons_cons_eq_append_cons (List.append_cancel_left h) with
          ⟨h0, _, h2⟩ | ⟨_, h1, _⟩ | ⟨pre1, _, h1⟩
        · subst h0
          refine ⟨by simpa using h2, by simp, by rw [Retry_nil hop]; rfl, ?_⟩
          simp [hop, hU]
        · simp at h1
        · have hm : Effect.send payload (some .registrationTokenNotRegistered) ∈
              [Effect.unregisterDevice token none, Effect.counterInc "ok"] := by
            rw [h1]; simp
          simp at hm
      | some ue =>
        rw [hU] at hop
        rw [Retry_permanent hop, List.append_assoc] at h
        rcases cons_cons_eq_append_cons (List.append_cancel_left h) with
          ⟨h0, _, h2⟩ | ⟨_, h1, _⟩ | ⟨pre1, _, h1⟩
        · subst h0
          refine ⟨by simpa using h2, by simp, by rw [Retry_permanent hop]; rfl, ?_⟩
          simp [hop, hU]
        · simp at h1
        · have hm : Effect.send payload (some .registrationTokenNotRegistered) ∈
              [Effect.unregisterDevice token (some ue)] := by
            rw [h1]; simp
          simp at hm
    · rw [Retry_permanent hop, List.append_assoc] at h
      rcases cons_cons_eq_append_cons (List.append_cancel_left h) with
        ⟨_, h1, _⟩ | ⟨_, h1, _⟩ | ⟨_, _, h1⟩
      · simp at h1
      · simp at h1
      · simp at h1
    · rcases hS with hS | hS | hS
      · rw [hS] at hS1; simp at hS1
      · rw [hS] at hS1; exact absurd (Option.some.inj hS1).symm he1
      · rw [hS] at hS1; exact absurd (Option.some.inj hS1).symm he2
  intro budget
  induction budget with
  | zero =>
    intro tr pre post h
    rcases sendOperation_cases env payload token tr with
      ⟨hS1, hop⟩ | ⟨hS1, hop⟩ | ⟨hS1, hop⟩ | ⟨e, he1, he2, hS1, hop⟩
    · exact stop 0 tr pre post h (Or.inl hS1)
    · exact stop 0 tr pre post h (Or.inr (Or.inl hS1))
    · exact stop 0 tr pre post h (Or.inr (Or.inr hS1))
    · rw [Retry_err_zero hop, List.append_assoc] at h
      rcases cons_cons_eq_append_cons (List.append_cancel_left h) with
        ⟨_, h1, _⟩ | ⟨_, h1, _⟩ | ⟨_, _, h1⟩
      · simp at h1; exact absurd h1 he1
      · simp at h1
      · simp at h1
  | succ n ih =>
    intro tr pre post h
    rcases sendOperation_cases env payload token tr with
      ⟨hS1, hop⟩ | ⟨hS1, hop⟩ | ⟨hS1, hop⟩ | ⟨e, he1, he2, hS1, hop⟩
    · exact stop (n + 1) tr pre post h (Or.inl hS1)
    · exact stop (n + 1) tr pre post h (Or.inr (Or.inl hS1))
    · exact stop (n + 1) tr pre post h (Or.inr (Or.inr hS1))
    · obtain ⟨new, hnew⟩ := Retry_extends env payload token n
        (tr ++ [Effect.send payload (some e), Effect.counterInc "error"])
      have h2 := h
      rw [Retry_err_succ hop, hnew, List.append_assoc, List.append_assoc] at h2
      rcases cons_cons_eq_append_cons (List.append_cancel_left h2) with
        ⟨_, h1, _⟩ | ⟨_, h1, _⟩ | ⟨pre1, hpre, h1⟩
      · simp at h1; exact absurd h1 he1
      · simp at h1
      · have h3 : (Retry (sendOperation env payload token) n
            (tr ++ [Effect.send payload (some e), Effect.counterInc "error"])).2 =
            (tr ++ [Effect.send payload (some e), Effect.counterInc "error"]) ++ pre1 ++
              Effect.send payload (some .registrationTokenNotRegistered) :: post := by
          have h4 : new = pre1 ++
              Effect.send payload (some .registrationTokenNotRegistered) :: post := h1
          rw [hnew, h4, List.append_assoc, List.append_assoc, List.append_assoc]
        obtain ⟨c1, c2, c3, c4⟩ := ih _ pre1 post h3
        refine ⟨c1, ?_, ?_, ?_⟩
        · intro x hx
          rw [hpre] at hx
          simp only [List.mem_cons] at hx
          rcases hx with hx | hx | hx
          · rw [hx]; rfl
          · rw [hx]; rfl
          · exact c2 x hx
        · rw [Retry_err_succ hop]; exact c3
        · rw [hpre]
          simpa [List.append_assoc] using c4

/-- Splitting off a last element that differs from a marked inner element. -/
theorem append_singleton_eq_append_cons {α : Type} {l x : α} {new pre post : List α}
    (h : new ++ [l] = pre ++ x :: post) (hx : x ≠ l) :
    ∃ post1, post = post1 ++ [l] ∧ new = pre ++ x :: post1 := by
  rcases List.eq_nil_or_concat post with hp | ⟨post1, b, hp⟩
  · subst hp
    have h1 : new ++ [l] = pre ++ [x] := h
    have h2 := List.append_inj' h1 rfl
    simp only [List.cons.injEq, and_true] at h2
    exact absurd h2.2.symm hx
  · subst hp
    have h1 : new ++ [l] = (pre ++ x :: post1) ++ [b] := by
      rw [h]; simp
    have h2 := List.append_inj' h1 rfl
    simp only [List.cons.injEq, and_true] at h2
    exact ⟨post1, by rw [h2.2, List.concat_eq_append], h2.1⟩

/-- Every attempt counts one `error` exactly when the provider failed, and one `ok`
exactly when the closure returns `nil`; the two coincide for a not-registered token whose
unregistration succeeds. -/
theorem sendOperation_counter (env : Env) (payload : Payload) (token : String)
    (tr : List Effect) :
    counterValue "error" (sendOperation env payload token tr).2 =
        counterValue "error" tr + (if env.Send tr payload = none then 0 else 1) ∧
    counterValue "ok" (sendOperation env payload token tr).2 =
        counterValue "ok" tr +
          (if (sendOperation env payload token tr).1 = OpResult.nil then 1 else 0) := by
  rcases sendOperation_cases env payload token tr with
    ⟨hS, hop⟩ | ⟨hS, hop⟩ | ⟨hS, hop⟩ | ⟨e, _, _, hS, hop⟩
  · rw [hop, hS]; simp [counterValue, List.count_cons]
  · rw [hop, hS]
    cases env.repo.UnregisterDevice token <;> simp [counterValue, List.count_cons]
  · rw [hop, hS]; simp [counterValue, List.count_cons]
  · rw [hop, hS]; simp [counterValue, List.count_cons]

/-- C1, on the code: for a token the provider reports as not registered and whose
unregistration succeeds, the single provider call of the delivery increments the counter
twice, once with label `error` and once with label `ok`. -/
theorem sendOperation_notRegistered_counts_both :
    sendOperation (scenarioEnv deliveryTable sendNotRegistered 3) deliveryPayload "T1" [] =
      (OpResult.nil,
        [Effect.send deliveryPayload (some .registrationTokenNotRegistered),
         Effect.counterInc "error",
         Effect.unregisterDevice "T1" none,
         Effect.counterInc "ok"]) ∧
    counterValue "error"
      (sendToToken (scenarioEnv deliveryTable sendNotRegistered 3) deliveryPayload "T1" []) = 1 ∧
    counterValue "ok"
      (sendToToken (scenarioEnv deliveryTable sendNotRegistered 3) deliveryPayload "T1" []) = 1 ∧
    ((sendToToken (scenarioEnv deliveryTable sendNotRegistered 3) deliveryPayload "T1" []).filter
      Effect.isSend).length = 1 := by
  decide

/-- C2: when the provider reports the token of a delivery as not registered, what follows
in the trace of that delivery is the error count, one `UnregisterDevice` call for exactly
that token, and then only the `ok` count (unregistration succeeded, the closure returns
`nil`) or the final log line (unregistration failed, the closure returns a permanent
error): no further provider call and no second unregistration; no unregistration precedes
the report either. -/
theorem sendToToken_notRegistered_unregisters_once (env : Env) (payload : Payload)
    (token : String) (tr pre post : List Effect)
    (h : sendToToken env payload token tr =
      tr ++ pre ++
        Effect.send { payload with Token := token } (some .registrationTokenNotRegistered) ::
          post) :
    post = Effect.counterInc "error" ::
        Effect.unregisterDevice token (env.repo.UnregisterDevice token) ::
        (match env.repo.UnregisterDevice token with
         | none => [Effect.counterInc "ok"]
         | some _ => [Effect.logError "an error occurred in sending fcm"]) ∧
    (∀ e ∈ pre, e.isUnregister = false) ∧
    (∀ e ∈ post, e.isSend = false) ∧
    (sendOperation env { payload with Token := token } token (tr ++ pre)).1 =
      (match env.repo.UnregisterDevice token with
       | none => OpResult.nil
       | some ue => OpResult.permanent (.repo ue)) := by
  obtain ⟨new, hnew⟩ :=
    Retry_extends env { payload with Token := token } token env.retryBudget tr
  have key : post = Effect.counterInc "error" ::
        Effect.unregisterDevice token (env.repo.UnregisterDevice token) ::
        (match env.repo.UnregisterDevice token with
         | none => [Effect.counterInc "ok"]
         | some _ => [Effect.logError "an error occurred in sending fcm"]) ∧
      (∀ e ∈ pre, e.isUnregister = false) ∧
      (sendOperation env { payload with Token := token } token (tr ++ pre)).1 =
        (match env.repo.UnregisterDevice token with
         | none => OpResult.nil
         | some ue => OpResult.permanent (.repo ue)) := by
    unfold sendToToken at h
    cases hR : Retry (sendOperation env { payload with Token := token } token)
        env.retryBudget tr with
    | mk res tr1 =>
      rw [hR] at hnew
      simp only at hnew
      subst hnew
      cases res with
      | some err =>
        simp only [hR, List.append_assoc] at h
        obtain ⟨post1, hp, hn⟩ :=
          append_singleton_eq_append_cons (List.append_cancel_left h) (by simp)
        have hR2 : (Retry (sendOperation env { payload with Token := token } token)
            env.retryBudget tr).2 = tr ++ pre ++
              Effect.send { payload with Token := token }
                (some .registrationTokenNotRegistered) :: post1 := by
          rw [hR, hn, List.append_assoc]
        obtain ⟨c1, c2, c3, c4⟩ := Retry_after_notRegistered env _ token _ tr pre post1 hR2
        rw [hR] at c3
        cases hU : env.repo.UnregisterDevice token with
        | none => rw [hU] at c3; simp at c3
        | some ue =>
          rw [hU] at c1 c4
          exact ⟨by rw [hp, c1]; rfl, c2, c4⟩
      | none =>
        simp only [hR, List.append_assoc] at h
        have hR2 : (Retry (sendOperation env { payload with Token := token } token)
            env.retryBudget tr).2 = tr ++ pre ++
              Effect.send { payload with Token := token }
                (some .registrationTokenNotRegistered) :: post := by
          rw [hR, List.append_assoc]; exact h
        obtain ⟨c1, c2, c3, c4⟩ := Retry_after_notRegistered env _ token _ tr pre post hR2
        rw [hR] at c3
        cases hU : env.repo.UnregisterDevice token with
        | some ue => rw [hU] at c3; simp at c3
        | none =>
          rw [hU] at c1 c4
          exact ⟨c1, c2, c4⟩
  refine ⟨key.1, key.2.1, ?_, key.2.2⟩
  intro e he
  rw [key.1] at he
  cases hU : env.repo.UnregisterDevice token <;> rw [hU] at he <;> simp at he <;>
    rcases he with he | he | he <;> rw [he] <;> rfl

/-- C2, witness: the provider is unavailable once and then reports `T1` as not
registered. -/
theorem sendToToken_notRegistered_unregisters_once_witness :
    sendToToken (scenarioEnv deliveryTable sendUnavailableThenNotRegistered 3)
        deliveryPayload "T1" [] =
      [] ++ [Effect.send deliveryPayload (some .serverUnavailable), Effect.counterInc "error"] ++
        Effect.send { deliveryPayload with Token := "T1" }
          (some .registrationTokenNotRegistered) ::
          [Effect.counterInc "error", Effect.unregisterDevice "T1" none,
           Effect.counterInc "ok"] ∧
    [Effect.counterInc "error", Effect.unregisterDevice "T1" none, Effect.counterInc "ok"] =
      Effect.counterInc "error" ::
        Effect.unregisterDevice "T1"
          ((scenarioEnv deliveryTable sendUnavailableThenNotRegistered 3).repo.UnregisterDevice
            "T1") ::
        (match (scenarioEnv deliveryTable sendUnavailableThenNotRegistered 3).repo.UnregisterDevice
            "T1" with
         | none => [Effect.counterInc "ok"]
         | some _ => [Effect.logError "an error occurred in sending fcm"]) :=
  ⟨by decide,
   (sendToToken_notRegistered_unregisters_once
      (scenarioEnv deliveryTable sendUnavailableThenNotRegistered 3) deliveryPayload "T1" []
      [Effect.send deliveryPayload (some .serverUnavailable), Effect.counterInc "error"]
      [Effect.counterInc "error", Effect.unregisterDevice "T1" none, Effect.counterInc "ok"]
      (by decide)).1⟩

/-! ## Recipient computation -/

/-- The set computed by the mention loop does not depend on the trace so far. -/
theorem expandMentions_fst (env : Env) (q : UsersQuery) :
    ∀ (vs : List EmbeddedInfo) (targets : UUIDSet) (tr : List Effect),
      (expandMentions env q vs targets tr).1 = (expandMentions env q vs targets []).1 := by
  intro vs
  induction vs with
  | nil => intro targets tr; rfl
  | cons v vs ih =>
    intro targets tr
    unfold expandMentions
    by_cases hu : v.Typ = "user"
    · simp only [hu, if_true]
      cases env.FromString v.ID with
      | none => exact ih _ _
      | some uid => exact ih _ _
    · simp only [hu, if_false]
      by_cases hg : v.Typ = "group"
      · simp only [hg, if_true]
        cases env.repo.GetUserIDs (q.GMemberOf (env.FromStringOrNil v.ID)) with
        | error e => rfl
        | ok gs =>
          simp only
          rw [ih _ (tr ++ _), ih _ ([] ++ _)]
      · simp only [hg, if_false]
        exact ih _ _

/-- The set computed by the `switch` does not depend on the trace so far. -/
theorem branchTargets_fst (env : Env) (ch : Channel) (message : Message)
    (embedded : List EmbeddedInfo) (tr : List Effect) :
    (branchTargets env ch message embedded tr).1 =
      (branchTargets env ch message embedded []).1 := by
  unfold branchTargets
  by_cases hF : ch.IsForced = true
  · simp only [hF, if_true]
    cases env.repo.GetUserIDs activeNotBot <;> rfl
  · simp only [hF]
    by_cases hP : (!ch.IsPublic) = true
    · simp only [hP, if_true]
      cases env.repo.GetUserIDs (activeNotBot.CMemberOf ch.ID) <;> rfl
    · simp only [hP]
      cases env.repo.GetUserIDs (activeNotBot.SubscriberOf ch.ID) with
      | error e => rfl
      | ok users =>
        simp only [Bool.false_eq_true, if_false]
        have h := expandMentions_fst env activeNotBot embedded ((∅ : UUIDSet).Add users)
          (tr ++ [Effect.getUserIDs (activeNotBot.SubscriberOf ch.ID)])
        have h0 := expandMentions_fst env activeNotBot embedded ((∅ : UUIDSet).Add users)
          ([] ++ [Effect.getUserIDs (activeNotBot.SubscriberOf ch.ID)])
        rcases hA : expandMentions env activeNotBot embedded ((∅ : UUIDSet).Add users)
          (tr ++ [Effect.getUserIDs (activeNotBot.SubscriberOf ch.ID)]) with ⟨a1, a2⟩
        rcases hB : expandMentions env activeNotBot embedded ((∅ : UUIDSet).Add users)
          ([] ++ [Effect.getUserIDs (activeNotBot.SubscriberOf ch.ID)]) with ⟨b1, b2⟩
        rw [hA] at h
        rw [hB] at h0
        simp only at h h0
        have hab : a1 = b1 := h.trans h0.symm
        subst hab
        cases a1 with
        | none => rfl
        | some t1 => cases env.repo.GetMuteUserIDs message.ChannelID <;> rfl

/-- The target set does not depend on the trace so far. -/
theorem computeTargets_fst (env : Env) (ch : Channel) (message : Message)
    (embedded : List EmbeddedInfo) (tr : List Effect) :
    (computeTargets env ch message embedded tr).1 =
      (computeTargets env ch message embedded []).1 := by
  unfold computeTargets
  have h := branchTargets_fst env ch message embedded tr
  rcases hA : branchTargets env ch message embedded tr with ⟨a1, a2⟩
  rcases hB : branchTargets env ch message embedded [] with ⟨b1, b2⟩
  rw [hA, hB] at h
  simp only at h
  subst h
  cases a1 <;> rfl

/-- The target set is the branch set without the author. -/
theorem computeTargets_eq (env : Env) (ch : Channel) (message : Message)
    (embedded : List EmbeddedInfo) (tr : List Effect) :
    (computeTargets env ch message embedded tr).1 =
      (branchTargets env ch message embedded []).1.map fun t => t.Remove [message.UserID] := by
  rw [computeTargets_fst]
  unfold computeTargets
  rcases branchTargets env ch message embedded [] with ⟨a1, a2⟩
  cases a1 <;> rfl

/-- A run that reaches line 191 went through `GetChannel` and the target computation. -/
theorem processMessageCreated_targets_some (env : Env) (message : Message) (plain : String)
    (embedded : List EmbeddedInfo) (t : UUIDSet)
    (h : (processMessageCreated env message plain embedded).targets = some t) :
    ∃ ch, env.repo.GetChannel message.ChannelID = .ok ch ∧
      (computeTargets env ch message embedded []).1 = some t := by
  unfold processMessageCreated at h
  cases hch : env.repo.GetChannel message.ChannelID with
  | error e => simp [hch] at h
  | ok ch =>
    refine ⟨ch, rfl, ?_⟩
    simp only [hch] at h
    cases hu : env.repo.GetUser message.UserID with
    | error e => simp [hu] at h
    | ok mUser0 =>
      simp only [hu] at h
      rcases hR : renderTitle env ch (withDisplayName mUser0) message plain
        (initData env (withDisplayName mUser0) message)
        [Effect.getChannel message.ChannelID, Effect.getUser message.UserID] with ⟨r1, tr1⟩
      rw [hR] at h
      cases r1 with
      | none => simp at h
      | some db =>
        obtain ⟨data1, body⟩ := db
        simp only at h
        rcases hI : imageScan env (DataMap.set data1 "body" (truncateBody body)) embedded tr1
          with ⟨data3, tr2⟩
        rw [hI] at h
        simp only at h
        have hc := computeTargets_fst env ch message embedded tr2
        rcases hC : computeTargets env ch message embedded tr2 with ⟨c1, tr3⟩
        rw [hC] at h hc
        simp only at hc
        cases c1 with
        | none => simp at h
        | some t1 =>
          simp only [Option.some.injEq] at h
          rw [← hc, h]

/-- When the lookups before line 136 succeed, the run reaches the target computation. -/
theorem processMessageCreated_targets (env : Env) (message : Message) (plain : String)
    (embedded : List EmbeddedInfo) (ch : Channel) (mUser0 : User)
    (hch : env.repo.GetChannel message.ChannelID = .ok ch)
    (hu : env.repo.GetUser message.UserID = .ok mUser0)
    (hpath : ch.IsDM = true ∨ ∃ path, env.repo.GetChannelPath message.ChannelID = .ok path) :
    (processMessageCreated env message plain embedded).targets =
      (computeTargets env ch message embedded []).1 := by
  unfold processMessageCreated
  simp only [hch, hu]
  have hR : ∃ data1 body tr1, renderTitle env ch (withDisplayName mUser0) message plain
      (initData env (withDisplayName mUser0) message)
      [Effect.getChannel message.ChannelID, Effect.getUser message.UserID] =
        (some (data1, body), tr1) := by
    unfold renderTitle
    by_cases hd : ch.IsDM = true
    · simp [hd]
    · rcases hpath with hp | ⟨path, hp⟩
      · exact absurd hp hd
      · simp [hd, hp]
  obtain ⟨data1, body, tr1, hR⟩ := hR
  rw [hR]
  simp only
  rcases hI : imageScan env (DataMap.set data1 "body" (truncateBody body)) embedded tr1
    with ⟨data3, tr2⟩
  simp only
  have hc := computeTargets_fst env ch message embedded tr2
  rcases hC : computeTargets env ch message embedded tr2 with ⟨c1, tr3⟩
  rw [hC] at hc
  simp only at hc
  cases c1 with
  | none => simp only; exact hc
  | some t1 => simp only; exact hc

/-- The set `U` of a list with one more embed in front. -/
theorem mentionedUsers_cons (env : Env) (v : EmbeddedInfo) (vs : List EmbeddedInfo) :
    mentionedUsers env (v :: vs) =
      (if v.Typ = "user" then (env.FromString v.ID).toFinset else ∅) ∪ mentionedUsers env vs := by
  unfold mentionedUsers
  rw [List.filterMap_cons]
  by_cases hu : v.Typ = "user"
  · simp only [hu, if_true]
    cases env.FromString v.ID with
    | none => simp
    | some uid =>
      ext x
      simp
  · simp [hu]

/-- The set `G` of a list with one more embed in front. -/
theorem mentionedGroupMembers_cons (env : Env) (v : EmbeddedInfo) (vs : List EmbeddedInfo) :
    mentionedGroupMembers env (v :: vs) =
      (if v.Typ = "group" then (groupMembers env v).toFinset else ∅) ∪
        mentionedGroupMembers env vs := by
  unfold mentionedGroupMembers
  rw [List.flatMap_cons, List.toFinset_append]
  by_cases hg : v.Typ = "group" <;> simp [hg]

/-- The mention loop adds exactly `U ∪ G` when every group lookup succeeds. -/
theorem expandMentions_ok (env : Env) :
    ∀ (vs : List EmbeddedInfo) (targets : UUIDSet) (tr : List Effect),
      (∀ v ∈ vs, v.Typ = "group" → ∃ gs,
        env.repo.GetUserIDs (activeNotBot.GMemberOf (env.FromStringOrNil v.ID)) = .ok gs) →
      (expandMentions env activeNotBot vs targets tr).1 =
        some (targets ∪ mentionedUsers env vs ∪ mentionedGroupMembers env vs) := by
  intro vs
  induction vs with
  | nil =>
    intro targets tr _
    simp [expandMentions, mentionedUsers, mentionedGroupMembers]
  | cons v vs ih =>
    intro targets tr hg
    have hg1 : ∀ w ∈ vs, w.Typ = "group" → ∃ gs,
        env.repo.GetUserIDs (activeNotBot.GMemberOf (env.FromStringOrNil w.ID)) = .ok gs :=
      fun w hw => hg w (List.mem_cons_of_mem _ hw)
    rw [mentionedUsers_cons, mentionedGroupMembers_cons]
    unfold expandMentions
    by_cases hu : v.Typ = "user"
    · have hng : ¬ v.Typ = "group" := by rw [hu]; decide
      simp only [hu, if_true, hng, if_false]
      cases hF : env.FromString v.ID with
      | none =>
        simp only
        rw [ih _ _ hg1]
        simp only [Option.some.injEq]
        generalize mentionedUsers env vs = U
        generalize mentionedGroupMembers env vs = G
        ext x
        simp [UUIDSet.Add]
      | some uid =>
        simp only
        rw [ih _ _ hg1]
        simp only [Option.some.injEq]
        generalize mentionedUsers env vs = U
        generalize mentionedGroupMembers env vs = G
        ext x
        simp [UUIDSet.Add]
    · simp only [hu, if_false]
      by_cases hgr : v.Typ = "group"
      · obtain ⟨gs, hgs⟩ := hg v (List.mem_cons_self _ _) hgr
        simp only [hgr, if_true, hgs, groupMembers]
        rw [ih _ _ hg1]
        simp only [Option.some.injEq]
        generalize mentionedUsers env vs = U
        generalize mentionedGroupMembers env vs = G
        ext x
        simp [UUIDSet.Add]
        tauto
      · simp only [hgr, if_false]
        rw [ih _ _ hg1]
        simp only [Option.some.injEq]
        generalize mentionedUsers env vs = U
        generalize mentionedGroupMembers env vs = G
        ext x
        simp [UUIDSet.Add]

/-! ## Effects of the fan-out and of the image scan -/

/-- A fold of steps that only append effects of one kind only appends effects of that
kind. -/
theorem foldl_appends {α : Type} (P : Effect → Prop) (f : List Effect → α → List Effect)
    (hf : ∀ tr x, ∃ new, f tr x = tr ++ new ∧ ∀ e ∈ new, P e) :
    ∀ (xs : List α) (tr : List Effect),
      ∃ new, xs.foldl f tr = tr ++ new ∧ ∀ e ∈ new, P e := by
  intro xs
  induction xs with
  | nil => intro tr; exact ⟨[], by simp, by simp⟩
  | cons x xs ih =>
    intro tr
    obtain ⟨new1, h1, p1⟩ := hf tr x
    obtain ⟨new2, h2, p2⟩ := ih (tr ++ new1)
    refine ⟨new1 ++ new2, ?_, ?_⟩
    · rw [List.foldl_cons, h1, h2, List.append_assoc]
    · intro e he
      rcases List.mem_append.mp he with he | he
      · exact p1 e he
      · exact p2 e he

/-- One attempt appends delivery effects only. -/
theorem sendOperation_appends (env : Env) (payload : Payload) (token : String)
    (tr : List Effect) :
    ∃ new, (sendOperation env payload token tr).2 = tr ++ new ∧
      ∀ e ∈ new, e.isDelivery = true := by
  rcases sendOperation_cases env payload token tr with
    ⟨_, hop⟩ | ⟨_, hop⟩ | ⟨_, hop⟩ | ⟨e, _, _, _, hop⟩
  · exact ⟨_, by rw [hop], by simp [Effect.isDelivery]⟩
  · refine ⟨_, by rw [hop], ?_⟩
    cases env.repo.UnregisterDevice token <;> simp [Effect.isDelivery]
  · exact ⟨_, by rw [hop], by simp [Effect.isDelivery]⟩
  · exact ⟨_, by rw [hop], by simp [Effect.isDelivery]⟩

/-- A retried send appends delivery effects only. -/
theorem Retry_appends (env : Env) (payload : Payload) (token : String) :
    ∀ (budget : Nat) (tr : List Effect),
      ∃ new, (Retry (sendOperation env payload token) budget tr).2 = tr ++ new ∧
        ∀ e ∈ new, e.isDelivery = true := by
  intro budget
  induction budget with
  | zero =>
    intro tr
    obtain ⟨new, hnew, hp⟩ := sendOperation_appends env payload token tr
    rcases hop : sendOperation env payload token tr with ⟨r, tr1⟩
    rw [hop] at hnew
    simp only at hnew
    subst hnew
    cases r with
    | nil => exact ⟨new, by rw [Retry_nil hop], hp⟩
    | permanent e => exact ⟨new, by rw [Retry_permanent hop], hp⟩
    | err e => exact ⟨new, by rw [Retry_err_zero hop], hp⟩
  | succ n ih =>
    intro tr
    obtain ⟨new, hnew, hp⟩ := sendOperation_appends env payload token tr
    rcases hop : sendOperation env payload token tr with ⟨r, tr1⟩
    rw [hop] at hnew
    simp only at hnew
    subst hnew
    cases r with
    | nil => exact ⟨new, by rw [Retry_nil hop], hp⟩
    | permanent e => exact ⟨new, by rw [Retry_permanent hop], hp⟩
    | err e =>
      obtain ⟨new2, hnew2, hp2⟩ := ih (tr ++ new)
      refine ⟨new ++ new2, by rw [Retry_err_succ hop, hnew2, List.append_assoc], ?_⟩
      intro x hx
      rcases List.mem_append.mp hx with hx | hx
      · exact hp x hx
      · exact hp2 x hx

/-- The delivery to one token appends delivery effects only. -/
theorem sendToToken_appends (env : Env) (payload : Payload) (token : String)
    (tr : List Effect) :
    ∃ new, sendToToken env payload token tr = tr ++ new ∧ ∀ e ∈ new, e.isDelivery = true := by
  obtain ⟨new, hnew, hp⟩ :=
    Retry_appends env { payload with Token := token } token env.retryBudget tr
  unfold sendToToken
  rcases hR : Retry (sendOperation env { payload with Token := token } token)
    env.retryBudget tr with ⟨res, tr1⟩
  rw [hR] at hnew
  simp only at hnew
  subst hnew
  cases res with
  | none => exact ⟨new, by simp only [hR], hp⟩
  | some err =>
    refine ⟨new ++ [Effect.logError "an error occurred in sending fcm"],
      by simp only [hR, List.append_assoc], ?_⟩
    intro x hx
    rcases List.mem_append.mp hx with hx | hx
    · exact hp x hx
    · simp only [List.mem_singleton] at hx
      rw [hx]; rfl

/-- The work for one user appends delivery effects only. -/
theorem sendToUser_appends (env : Env) (data : DataMap) (u : UUID) (tr : List Effect) :
    ∃ new, sendToUser env data u tr = tr ++ new ∧ ∀ e ∈ new, e.isDelivery = true := by
  unfold sendToUser
  cases env.repo.GetDeviceTokensByUserID u with
  | error e => exact ⟨_, rfl, by simp [Effect.isDelivery]⟩
  | ok devs =>
    obtain ⟨new, hnew, hp⟩ := foldl_appends (fun e => e.isDelivery = true)
      (fun t token => sendToToken env (mkPayload env data) token t)
      (fun t token => sendToToken_appends env (mkPayload env data) token t) devs
      (tr ++ [Effect.getDeviceTokensByUserID u])
    refine ⟨Effect.getDeviceTokensByUserID u :: new, ?_, ?_⟩
    · simp only [hnew, List.append_assoc, List.singleton_append]
    · intro x hx
      rcases List.mem_cons.mp hx with hx | hx
      · rw [hx]; rfl
      · exact hp x hx

/-- The fan-out appends delivery effects only. -/
theorem fanOut_appends (env : Env) (data : DataMap) (targets : UUIDSet) (tr : List Effect) :
    ∃ new, fanOut env data targets tr = tr ++ new ∧ ∀ e ∈ new, e.isDelivery = true :=
  foldl_appends (fun e => e.isDelivery = true) (fun t u => sendToUser env data u t)
    (fun t u => sendToUser_appends env data u t) targets.toSortedList tr

/-- The image scan appends `GetFileMeta` calls only. -/
theorem imageScan_appends (env : Env) (data : DataMap) :
    ∀ (vs : List EmbeddedInfo) (tr : List Effect),
      ∃ new, (imageScan env data vs tr).2 = tr ++ new ∧
        ∀ e ∈ new, ∃ id, e = Effect.getFileMeta id := by
  intro vs
  induction vs with
  | nil => intro tr; exact ⟨[], by simp [imageScan], by simp⟩
  | cons v vs ih =>
    intro tr
    unfold imageScan
    by_cases hf : v.Typ = "file"
    · simp only [hf, if_true]
      obtain ⟨new, hnew, hp⟩ := ih (tr ++ [Effect.getFileMeta (env.FromStringOrNil v.ID)])
      have hrec : ∃ new1, (imageScan env data vs
          (tr ++ [Effect.getFileMeta (env.FromStringOrNil v.ID)])).2 = tr ++ new1 ∧
          ∀ e ∈ new1, ∃ id, e = Effect.getFileMeta id := by
        refine ⟨Effect.getFileMeta (env.FromStringOrNil v.ID) :: new, ?_, ?_⟩
        · rw [hnew]; simp
        · intro x hx
          rcases List.mem_cons.mp hx with hx | hx
          · exact ⟨_, hx⟩
          · exact hp x hx
      cases env.repo.GetFileMeta (env.FromStringOrNil v.ID) with
      | none => exact hrec
      | some f =>
        by_cases ht : f.HasThumbnail = true
        · simp only [ht, if_true]
          exact ⟨[Effect.getFileMeta (env.FromStringOrNil v.ID)], rfl, by simp⟩
        · simp only [ht]
          exact hrec
    · simp only [hf, if_false]
      exact ih tr

/-- The trace of a run whose lookups before line 136 succeed: the lookups of the
rendering, then the effects of the target computation, then delivery effects. -/
theorem processMessageCreated_trace (env : Env) (message : Message) (plain : String)
    (embedded : List EmbeddedInfo) (ch : Channel) (mUser0 : User)
    (hch : env.repo.GetChannel message.ChannelID = .ok ch)
    (hu : env.repo.GetUser message.UserID = .ok mUser0)
    (hpath : ch.IsDM = true ∨ ∃ path, env.repo.GetChannelPath message.ChannelID = .ok path) :
    ∃ pre tail,
      (∀ e ∈ pre, e = Effect.getChannel message.ChannelID ∨ e = Effect.getUser message.UserID ∨
        e = Effect.getChannelPath message.ChannelID ∨ ∃ id, e = Effect.getFileMeta id) ∧
      (∀ e ∈ tail, e.isDelivery = true) ∧
      (processMessageCreated env message plain embedded).trace =
        (computeTargets env ch message embedded pre).2 ++ tail := by
  unfold processMessageCreated
  simp only [hch, hu]
  have hR : ∃ data1 body tr1, renderTitle env ch (withDisplayName mUser0) message plain
      (initData env (withDisplayName mUser0) message)
      [Effect.getChannel message.ChannelID, Effect.getUser message.UserID] =
        (some (data1, body), tr1) ∧
      ∀ e ∈ tr1, e = Effect.getChannel message.ChannelID ∨
        e = Effect.getUser message.UserID ∨
        e = Effect.getChannelPath message.ChannelID ∨ ∃ id, e = Effect.getFileMeta id := by
    unfold renderTitle
    by_cases hd : ch.IsDM = true
    · simp only [hd, if_true]
      exact ⟨_, _, _, rfl, by simp⟩
    · rcases hpath with hp | ⟨path, hp⟩
      · exact absurd hp hd
      · simp only [hd, hp]
        exact ⟨_, _, _, rfl, by simp⟩
  obtain ⟨data1, body, tr1, hR, hpre⟩ := hR
  rw [hR]
  simp only
  obtain ⟨new, hnew, hp⟩ :=
    imageScan_appends env (DataMap.set data1 "body" (truncateBody body)) embedded tr1
  rcases hI : imageScan env (DataMap.set data1 "body" (truncateBody body)) embedded tr1
    with ⟨data3, tr2⟩
  rw [hI] at hnew
  simp only at hnew
  subst hnew
  simp only
  have hpre2 : ∀ e ∈ tr1 ++ new, e = Effect.getChannel message.ChannelID ∨
      e = Effect.getUser message.UserID ∨
      e = Effect.getChannelPath message.ChannelID ∨ ∃ id, e = Effect.getFileMeta id := by
    intro e he
    rcases List.mem_append.mp he with he | he
    · exact hpre e he
    · exact Or.inr (Or.inr (Or.inr (hp e he)))
  rcases hC : computeTargets env ch message embedded (tr1 ++ new) with ⟨c1, tr3⟩
  cases c1 with
  | none =>
    refine ⟨tr1 ++ new, [], hpre2, by simp, ?_⟩
    rw [hC]; simp
  | some t =>
    obtain ⟨tail, htail, hd⟩ := fanOut_appends env data3 t tr3
    refine ⟨tr1 ++ new, tail, hpre2, hd, ?_⟩
    rw [hC]
    simp only
    exact htail

/-- C3: whenever an event is processed up to the computation of the target set, the
author of the message is not in that set, whatever the branch and whatever the
subscriptions, mentions and group memberships of the author. -/
theorem author_never_target (env : Env) (message : Message) (plain : String)
    (embedded : List EmbeddedInfo) (t : UUIDSet)
    (h : (processMessageCreated env message plain embedded).targets = some t) :
    message.UserID ∉ t := by
  obtain ⟨ch, _, hc⟩ := processMessageCreated_targets_some env message plain embedded t h
  rw [computeTargets_eq] at hc
  cases hb : (branchTargets env ch message embedded []).1 with
  | none => rw [hb] at hc; simp at hc
  | some b =>
    rw [hb] at hc
    simp only [Option.map_some', Option.some.injEq] at hc
    rw [← hc]
    simp [UUIDSet.Remove]

/-- C3, witness: the author `A` subscribes to the normal channel, is mentioned directly
and is a member of the mentioned group `G`. -/
theorem author_never_target_witness :
    (processMessageCreated (scenarioEnv mentionTable sendOk 3) messageByA "hi"
        [⟨"user", "A"⟩, ⟨"group", "G"⟩]).targets = some {3} ∧
    messageByA.UserID ∉ ({3} : UUIDSet) :=
  ⟨by decide,
   author_never_target (scenarioEnv mentionTable sendOk 3) messageByA "hi"
     [⟨"user", "A"⟩, ⟨"group", "G"⟩] {3} (by decide)⟩

/-- In the normal branch the set before the author is removed is what the mention loop
produced, without the mute list. -/
theorem branchTargets_normal (env : Env) (ch : Channel) (message : Message)
    (embedded : List EmbeddedInfo) (muted : List UUID) (b : UUIDSet)
    (hF : ch.IsForced = false) (hP : ch.IsPublic = true)
    (hm : env.repo.GetMuteUserIDs message.ChannelID = .ok muted)
    (hb : (branchTargets env ch message embedded []).1 = some b) :
    ∃ users t1, env.repo.GetUserIDs (activeNotBot.SubscriberOf ch.ID) = .ok users ∧
      (expandMentions env activeNotBot embedded ((∅ : UUIDSet).Add users) []).1 = some t1 ∧
      b = t1.Remove muted := by
  unfold branchTargets at hb
  simp only [hF, hP, Bool.false_eq_true, if_false, Bool.not_true] at hb
  cases hs : env.repo.GetUserIDs (activeNotBot.SubscriberOf ch.ID) with
  | error e => rw [hs] at hb; simp at hb
  | ok users =>
    rw [hs] at hb
    simp only at hb
    have h0 := expandMentions_fst env activeNotBot embedded ((∅ : UUIDSet).Add users)
      ([] ++ [Effect.getUserIDs (activeNotBot.SubscriberOf ch.ID)])
    rcases hE : expandMentions env activeNotBot embedded ((∅ : UUIDSet).Add users)
      ([] ++ [Effect.getUserIDs (activeNotBot.SubscriberOf ch.ID)]) with ⟨e1, tr1⟩
    rw [hE] at hb h0
    simp only at h0
    cases e1 with
    | none => simp at hb
    | some t1 =>
      simp only [hm, Option.some.injEq] at hb
      exact ⟨users, t1, rfl, h0.symm, hb.symm⟩

/-- C4: in a normal channel (not forced, public) no user returned by `GetMuteUserIDs` for
the channel of the message is in the target set, whether that user subscribes, is
mentioned directly or belongs to a mentioned group. -/
theorem muted_never_target_normal (env : Env) (message : Message) (plain : String)
    (embedded : List EmbeddedInfo) (ch : Channel) (muted : List UUID) (t : UUIDSet)
    (hch : env.repo.GetChannel message.ChannelID = .ok ch)
    (hF : ch.IsForced = false) (hP : ch.IsPublic = true)
    (hm : env.repo.GetMuteUserIDs message.ChannelID = .ok muted)
    (h : (processMessageCreated env message plain embedded).targets = some t) :
    ∀ u ∈ muted, u ∉ t := by
  obtain ⟨ch1, hch1, hc⟩ := processMessageCreated_targets_some env message plain embedded t h
  rw [hch] at hch1
  cases hch1
  rw [computeTargets_eq] at hc
  cases hb : (branchTargets env ch message embedded []).1 with
  | none => rw [hb] at hc; simp at hc
  | some b =>
    rw [hb] at hc
    simp only [Option.map_some', Option.some.injEq] at hc
    obtain ⟨users, t1, _, _, hbt⟩ := branchTargets_normal env ch message embedded muted b hF hP hm hb
    intro u hu
    rw [← hc, hbt]
    simp [UUIDSet.Remove, hu]

/-- C4, witness: `B` has muted the channel, subscribes to it, is mentioned directly and
is a member of the mentioned group `G`. -/
theorem muted_never_target_normal_witness :
    (processMessageCreated (scenarioEnv mentionTable sendOk 3) messageByA "hi"
        [⟨"user", "B"⟩, ⟨"group", "G"⟩]).targets = some {3} ∧
    (scenarioEnv mentionTable sendOk 3).repo.GetMuteUserIDs messageByA.ChannelID = .ok [2] ∧
    ∀ u ∈ [2], u ∉ ({3} : UUIDSet) :=
  ⟨by decide, rfl,
   muted_never_target_normal (scenarioEnv mentionTable sendOk 3) messageByA "hi"
     [⟨"user", "B"⟩, ⟨"group", "G"⟩] publicChannel [2] {3} rfl (by decide) (by decide)
     rfl (by decide)⟩

/-- C5: in a normal channel whose lookups all succeed the target set is
`((S ∪ U ∪ G) \ M) \ {author}`: `S` the answer to the subscriber query, `U` the ids of the
`user` embeds that parse (unfiltered), `G` the union of the answers to the group queries of
the `group` embeds, `M` the mute list of the channel. -/
theorem normal_channel_targets (env : Env) (message : Message) (plain : String)
    (embedded : List EmbeddedInfo) (ch : Channel) (mUser0 : User)
    (subscribers muted : List UUID)
    (hch : env.repo.GetChannel message.ChannelID = .ok ch)
    (hu : env.repo.GetUser message.UserID = .ok mUser0)
    (hpath : ch.IsDM = true ∨ ∃ path, env.repo.GetChannelPath message.ChannelID = .ok path)
    (hF : ch.IsForced = false) (hP : ch.IsPublic = true)
    (hs : env.repo.GetUserIDs (activeNotBot.SubscriberOf ch.ID) = .ok subscribers)
    (hg : ∀ v ∈ embedded, v.Typ = "group" → ∃ gs,
      env.repo.GetUserIDs (activeNotBot.GMemberOf (env.FromStringOrNil v.ID)) = .ok gs)
    (hm : env.repo.GetMuteUserIDs message.ChannelID = .ok muted) :
    (processMessageCreated env message plain embedded).targets =
      some (normalTargetsSpec env message embedded subscribers muted) := by
  rw [processMessageCreated_targets env message plain embedded ch mUser0 hch hu hpath,
    computeTargets_eq]
  have hb : (branchTargets env ch message embedded []).1 =
      some ((((∅ : UUIDSet).Add subscribers) ∪ mentionedUsers env embedded ∪
        mentionedGroupMembers env embedded).Remove muted) := by
    unfold branchTargets
    simp only [hF, hP, Bool.false_eq_true, if_false, Bool.not_true, hs]
    have hE := expandMentions_ok env embedded ((∅ : UUIDSet).Add subscribers)
      ([] ++ [Effect.getUserIDs (activeNotBot.SubscriberOf ch.ID)]) hg
    rcases hX : expandMentions env activeNotBot embedded ((∅ : UUIDSet).Add subscribers)
      ([] ++ [Effect.getUserIDs (activeNotBot.SubscriberOf ch.ID)]) with ⟨e1, tr1⟩
    rw [hX] at hE
    simp only at hE
    subst hE
    simp only [hm]
  rw [hb]
  simp only [Option.map_some', Option.some.injEq, normalTargetsSpec, UUIDSet.Remove, UUIDSet.Add]
  ext x
  simp

/-- C5, witness (scenario 2): subscribers `A` and `B`, `B` has muted the channel, the
message of `A` mentions the group `G` whose only member is `C`; the target set is
`{C}`. -/
theorem normal_channel_targets_witness :
    (processMessageCreated (scenarioEnv normalTable sendOk 3) messageByA "hi"
        [⟨"group", "G"⟩]).targets =
      some (normalTargetsSpec (scenarioEnv normalTable sendOk 3) messageByA [⟨"group", "G"⟩]
        [1, 2] [2]) ∧
    normalTargetsSpec (scenarioEnv normalTable sendOk 3) messageByA [⟨"group", "G"⟩]
        [1, 2] [2] = {3} :=
  ⟨normal_channel_targets (scenarioEnv normalTable sendOk 3) messageByA "hi" [⟨"group", "G"⟩]
     publicChannel ⟨1, "alice", ""⟩ [1, 2] [2] rfl rfl
     (Or.inr ⟨"gps/random", rfl⟩) (by decide) (by decide) rfl
     (fun _ _ _ => ⟨_, rfl⟩) rfl,
   by decide⟩

/-- The forced and the private branch make one user query and nothing else. -/
theorem computeTargets_forced_private (env : Env) (ch : Channel) (message : Message)
    (embedded : List EmbeddedInfo) (tr : List Effect) (users : List UUID)
    (hb : ch.IsForced = true ∨ ch.IsPublic = false)
    (hq : env.repo.GetUserIDs
      (if ch.IsForced then activeNotBot else activeNotBot.CMemberOf ch.ID) = .ok users) :
    computeTargets env ch message embedded tr =
      (some (users.toFinset \ {message.UserID}),
        tr ++ [Effect.getUserIDs
          (if ch.IsForced then activeNotBot else activeNotBot.CMemberOf ch.ID)]) := by
  have hset : (((∅ : UUIDSet).Add users).Remove [message.UserID]) =
      users.toFinset \ {message.UserID} := by
    ext x
    simp [UUIDSet.Add, UUIDSet.Remove]
  unfold computeTargets branchTargets
  by_cases hF : ch.IsForced = true
  · simp only [hF, if_true] at hq ⊢
    simp only [hq, hset]
  · rcases hb with hb | hb
    · exact absurd hb hF
    · simp only [hF, Bool.false_eq_true, if_false, hb, Bool.not_false, if_true] at hq ⊢
      simp only [hq, hset]

/-- C6: if the channel is forced, or else if it is not public, the target set is the
answer to the one user query of that branch (all active non-bot users, or the active
non-bot members of the channel) minus the author, for every list of embeds; the run calls
`GetUserIDs` with that query only and never calls `GetMuteUserIDs`. -/
theorem forced_private_targets (env : Env) (message : Message) (plain : String)
    (embedded : List EmbeddedInfo) (ch : Channel) (mUser0 : User) (users : List UUID)
    (hch : env.repo.GetChannel message.ChannelID = .ok ch)
    (hu : env.repo.GetUser message.UserID = .ok mUser0)
    (hpath : ch.IsDM = true ∨ ∃ path, env.repo.GetChannelPath message.ChannelID = .ok path)
    (hb : ch.IsForced = true ∨ ch.IsPublic = false)
    (hq : env.repo.GetUserIDs
      (if ch.IsForced then activeNotBot else activeNotBot.CMemberOf ch.ID) = .ok users) :
    (processMessageCreated env message plain embedded).targets =
      some (users.toFinset \ {message.UserID}) ∧
    ∀ e ∈ (processMessageCreated env message plain embedded).trace,
      (∀ id, e ≠ Effect.getMuteUserIDs id) ∧
      (∀ q, e = Effect.getUserIDs q →
        q = if ch.IsForced then activeNotBot else activeNotBot.CMemberOf ch.ID) := by
  constructor
  · rw [processMessageCreated_targets env message plain embedded ch mUser0 hch hu hpath,
      computeTargets_forced_private env ch message embedded [] users hb hq]
  · obtain ⟨pre, tail, hpre, htail, htr⟩ :=
      processMessageCreated_trace env message plain embedded ch mUser0 hch hu hpath
    rw [htr, computeTargets_forced_private env ch message embedded pre users hb hq]
    intro e he
    simp only [List.mem_append, List.mem_singleton] at he
    rcases he with (he | he) | he
    · rcases hpre e he with h | h | h | ⟨id, h⟩ <;> subst h <;> simp
    · subst he
      simp
    · have hd := htail e he
      cases e <;> simp [Effect.isDelivery] at hd ⊢

/-- C6, witness (scenarios 5 and 1): in the private channel with members `A` and `B` a
message of `A` that mentions the non-member `X` has the target set `{B}`, although `B` has
muted the channel; in the forced channel the target set is `{B}` as well. -/
theorem forced_private_targets_witness :
    ((processMessageCreated (scenarioEnv privateTable sendOk 3) messageByA "hi"
        [⟨"user", "X"⟩]).targets = some ([1, 2].toFinset \ {messageByA.UserID}) ∧
      4 ∉ ([1, 2].toFinset \ {messageByA.UserID} : Finset UUID) ∧
      ∀ e ∈ (processMessageCreated (scenarioEnv privateTable sendOk 3) messageByA "hi"
          [⟨"user", "X"⟩]).trace,
        (∀ id, e ≠ Effect.getMuteUserIDs id) ∧
        (∀ q, e = Effect.getUserIDs q → q = activeNotBot.CMemberOf 10)) ∧
    (processMessageCreated (scenarioEnv forcedTable sendOk 3) messageByA "hi"
        [⟨"user", "X"⟩]).targets = some {2} :=
  ⟨⟨(forced_private_targets (scenarioEnv privateTable sendOk 3) messageByA "hi"
        [⟨"user", "X"⟩] ⟨10, false, false, false⟩ ⟨1, "alice", ""⟩ [1, 2] rfl rfl
        (Or.inr ⟨"secret", rfl⟩) (Or.inr rfl) rfl).1,
     by decide,
     (forced_private_targets (scenarioEnv privateTable sendOk 3) messageByA "hi"
        [⟨"user", "X"⟩] ⟨10, false, false, false⟩ ⟨1, "alice", ""⟩ [1, 2] rfl rfl
        (Or.inr ⟨"secret", rfl⟩) (Or.inr rfl) rfl).2⟩,
   (forced_private_targets (scenarioEnv forcedTable sendOk 3) messageByA "hi"
      [⟨"user", "X"⟩] ⟨10, false, true, false⟩ ⟨1, "alice", ""⟩ [1, 2] rfl rfl
      (Or.inr ⟨"announce", rfl⟩) (Or.inl rfl) rfl).1⟩

/-! ## Payload rendering -/

theorem DataMap.get_set_self (m : DataMap) (k v : String) :
    (m.set k v).get k = some v := by
  induction m with
  | nil => simp [DataMap.set, DataMap.get]
  | cons p m ih =>
    obtain ⟨k1, v1⟩ := p
    by_cases h : k1 = k
    · simp [DataMap.set, DataMap.get, h]
    · simp [DataMap.set, DataMap.get, h, ih]

theorem DataMap.get_set_ne (m : DataMap) (k v k1 : String) (hk : k ≠ k1) :
    (m.set k v).get k1 = m.get k1 := by
  induction m with
  | nil => simp [DataMap.set, DataMap.get, hk]
  | cons p m ih =>
    obtain ⟨k2, v2⟩ := p
    by_cases h : k2 = k
    · subst h
      simp [DataMap.set, DataMap.get, hk]
    · by_cases h1 : k2 = k1
      · subst h1
        simp [DataMap.set, DataMap.get, h]
      · simp [DataMap.set, DataMap.get, h, h1, ih]

/-- The two ways `renderTitle` can succeed. -/
theorem renderTitle_some (env : Env) (ch : Channel) (u : User) (message : Message)
    (plain : String) (data : DataMap) (tr : List Effect) (data1 : DataMap) (body : String)
    (tr1 : List Effect)
    (h : renderTitle env ch u message plain data tr = (some (data1, body), tr1)) :
    (ch.IsDM = true ∧
      data1 = (data.set "title" ("@" ++ u.DisplayName)).set "path" ("/users/" ++ u.Name) ∧
      body = plain) ∨
    (ch.IsDM = false ∧ ∃ path, env.repo.GetChannelPath message.ChannelID = .ok path ∧
      data1 = (data.set "title" ("#" ++ path)).set "path" ("/channels/" ++ path) ∧
      body = u.DisplayName ++ ": " ++ plain) := by
  unfold renderTitle at h
  by_cases hd : ch.IsDM = true
  · simp only [hd, if_true, Prod.mk.injEq, Option.some.injEq] at h
    exact Or.inl ⟨hd, h.1.1.symm, h.1.2.symm⟩
  · simp only [hd, Bool.false_eq_true, if_false] at h
    cases hp : env.repo.GetChannelPath message.ChannelID with
    | error e => rw [hp] at h; simp at h
    | ok path =>
      rw [hp] at h
      simp only [Prod.mk.injEq, Option.some.injEq] at h
      exact Or.inr ⟨by simpa using hd, path, rfl, h.1.1.symm, h.1.2.symm⟩

/-- The map after the image scan: the `image` key is set from the first embed with a
thumbnail, if there is one. -/
theorem imageScan_fst (env : Env) (data : DataMap) :
    ∀ (vs : List EmbeddedInfo) (tr : List Effect),
      (imageScan env data vs tr).1 =
        match vs.find? (hasThumbnail env) with
        | some v => data.set "image" (thumbnailURL env v)
        | none => data := by
  intro vs
  induction vs with
  | nil => intro tr; rfl
  | cons v vs ih =>
    intro tr
    unfold imageScan
    by_cases hf : v.Typ = "file"
    · simp only [hf, if_true]
      cases hm : env.repo.GetFileMeta (env.FromStringOrNil v.ID) with
      | none =>
        have hv : hasThumbnail env v = false := by simp [hasThumbnail, hm]
        simp only [List.find?_cons, hv]
        exact ih _
      | some f =>
        by_cases ht : f.HasThumbnail = true
        · have hv : hasThumbnail env v = true := by simp [hasThumbnail, hm, hf, ht]
          simp only [ht, if_true, List.find?_cons, hv, thumbnailURL]
        · have hv : hasThumbnail env v = false := by simp [hasThumbnail, hm, ht]
          simp only [ht, List.find?_cons, hv]
          exact ih _
    · have hv : hasThumbnail env v = false := by simp [hasThumbnail, hf]
      simp only [hf, if_false, List.find?_cons, hv]
      exact ih _

/-- How the `data` map of a run is built. -/
theorem processMessageCreated_data (env : Env) (message : Message) (plain : String)
    (embedded : List EmbeddedInfo) (d : DataMap)
    (h : (processMessageCreated env message plain embedded).data = some d) :
    ∃ ch mUser0 data1 body tr1,
      env.repo.GetChannel message.ChannelID = .ok ch ∧
      env.repo.GetUser message.UserID = .ok mUser0 ∧
      renderTitle env ch (withDisplayName mUser0) message plain
        (initData env (withDisplayName mUser0) message)
        [Effect.getChannel message.ChannelID, Effect.getUser message.UserID] =
          (some (data1, body), tr1) ∧
      (processMessageCreated env message plain embedded).body = some body ∧
      d = (imageScan env (data1.set "body" (truncateBody body)) embedded tr1).1 := by
  have h0 := h
  unfold processMessageCreated at h
  cases hch : env.repo.GetChannel message.ChannelID with
  | error e => simp [hch] at h
  | ok ch =>
    simp only [hch] at h
    cases hu : env.repo.GetUser message.UserID with
    | error e => simp [hu] at h
    | ok mUser0 =>
      simp only [hu] at h
      rcases hR : renderTitle env ch (withDisplayName mUser0) message plain
        (initData env (withDisplayName mUser0) message)
        [Effect.getChannel message.ChannelID, Effect.getUser message.UserID] with ⟨r1, tr1⟩
      rw [hR] at h
      cases r1 with
      | none => simp at h
      | some db =>
        obtain ⟨data1, body⟩ := db
        simp only at h
        rcases hI : imageScan env (DataMap.set data1 "body" (truncateBody body)) embedded tr1
          with ⟨data3, tr2⟩
        rw [hI] at h
        simp only at h
        rcases hC : computeTargets env ch message embedded tr2 with ⟨c1, tr3⟩
        rw [hC] at h
        refine ⟨ch, mUser0, data1, body, tr1, rfl, rfl, hR, ?_, ?_⟩
        · unfold processMessageCreated
          simp only [hch, hu, hR, hI, hC]
          cases c1 <;> rfl
        · rw [hI]
          cases c1 <;> simp only [Option.some.injEq] at h <;> exact h.symm

/-- When `GetChannel`, `GetUser` and, outside direct messages, `GetChannelPath` succeed,
the `data` map is built. -/
theorem processMessageCreated_data_isSome (env : Env) (message : Message) (plain : String)
    (embedded : List EmbeddedInfo) (ch : Channel) (mUser0 : User)
    (hch : env.repo.GetChannel message.ChannelID = .ok ch)
    (hu : env.repo.GetUser message.UserID = .ok mUser0)
    (hpath : ch.IsDM = true ∨ ∃ path, env.repo.GetChannelPath message.ChannelID = .ok path) :
    ∃ d, (processMessageCreated env message plain embedded).data = some d := by
  unfold processMessageCreated
  simp only [hch, hu]
  have hR : ∃ data1 body tr1, renderTitle env ch (withDisplayName mUser0) message plain
      (initData env (withDisplayName mUser0) message)
      [Effect.getChannel message.ChannelID, Effect.getUser message.UserID] =
        (some (data1, body), tr1) := by
    unfold renderTitle
    by_cases hd : ch.IsDM = true
    · simp only [hd, if_true]
      exact ⟨_, _, _, rfl⟩
    · rcases hpath with hp | ⟨path, hp⟩
      · exact absurd hp hd
      · simp only [hd, hp]
        exact ⟨_, _, _, rfl⟩
  obtain ⟨data1, body, tr1, hR⟩ := hR
  rw [hR]
  simp only
  rcases imageScan env (DataMap.set data1 "body" (truncateBody body)) embedded tr1
    with ⟨data3, tr2⟩
  simp only
  rcases computeTargets env ch message embedded tr2 with ⟨c1, tr3⟩
  cases c1 <;> exact ⟨data3, rfl⟩

theorem runeCount_eq_length (b : String) : runeCount b = b.length := by
  cases b; rfl

theorem truncateBody_short (b : String) (h : b.length ≤ 100) : truncateBody b = b := by
  unfold truncateBody
  rw [runeCount_eq_length]
  simp [Nat.not_lt.mpr h]

theorem truncateBody_long (b : String) (h : 100 < b.length) :
    truncateBody b = String.mk (b.data.take 97) ++ "..." := by
  unfold truncateBody
  rw [runeCount_eq_length]
  simp [h, runeSlice]

theorem truncated_length (b : String) (h : 100 < b.length) :
    (String.mk (b.data.take 97) ++ "...").length = 100 := by
  have h1 : b.data.length = b.length := by cases b; rfl
  rw [String.length_append]
  have h2 : (String.mk (b.data.take 97)).length = 97 := by
    show (b.data.take 97).length = 97
    rw [List.length_take]
    omega
  rw [h2]
  rfl

/-- Every key other than `image` is read from the map as it was before the image scan. -/
theorem imageScan_get (env : Env) (data : DataMap) (vs : List EmbeddedInfo)
    (tr : List Effect) (k : String) (hk : "image" ≠ k) :
    (imageScan env data vs tr).1.get k = data.get k := by
  rw [imageScan_fst]
  cases vs.find? (hasThumbnail env) with
  | none => rfl
  | some v => exact DataMap.get_set_ne _ _ _ _ hk

/-- C7: the `body` entry of the data map is the rendered body `b` itself when `b` has at
most 100 code points, and otherwise the first 97 code points of `b` followed by `...`,
which has exactly 100 code points; so it never has more than 100 code points, and when it
was cut it ends in `...` after a prefix of `b`. -/
theorem body_truncation (env : Env) (message : Message) (plain : String)
    (embedded : List EmbeddedInfo) (b : String) (d : DataMap)
    (hb : (processMessageCreated env message plain embedded).body = some b)
    (hd : (processMessageCreated env message plain embedded).data = some d) :
    (b.length ≤ 100 → d.get "body" = some b) ∧
    (100 < b.length →
      d.get "body" = some (String.mk (b.data.take 97) ++ "...") ∧
      (String.mk (b.data.take 97) ++ "...").length = 100) ∧
    (∃ t, d.get "body" = some t ∧ t.length ≤ 100 ∧
      (100 < b.length → ∃ p : String, t = p ++ "..." ∧ p.data <+: b.data)) := by
  obtain ⟨ch, mUser0, data1, body, tr1, _, _, _, hbody, hdata⟩ :=
    processMessageCreated_data env message plain embedded d hd
  rw [hb] at hbody
  cases hbody
  have hget : d.get "body" = some (truncateBody b) := by
    rw [hdata, imageScan_get _ _ _ _ _ (by decide), DataMap.get_set_self]
  refine ⟨?_, ?_, ?_⟩
  · intro h
    rw [hget, truncateBody_short b h]
  · intro h
    rw [hget, truncateBody_long b h]
    exact ⟨rfl, truncated_length b h⟩
  · refine ⟨truncateBody b, hget, ?_, ?_⟩
    · by_cases h : 100 < b.length
      · rw [truncateBody_long b h, truncated_length b h]
      · rw [truncateBody_short b (Nat.not_lt.mp h)]
        exact Nat.not_lt.mp h
    · intro h
      exact ⟨String.mk (b.data.take 97), truncateBody_long b h, List.take_prefix 97 b.data⟩

/-- C7, witness: a direct message of 101 code points is cut to 97 code points and
`...`. -/
theorem body_truncation_witness :
    (processMessageCreated (scenarioEnv dmTable sendOk 3) dmMessage longPlain []).body =
      some longPlain ∧
    (processMessageCreated (scenarioEnv dmTable sendOk 3) dmMessage longPlain []).data =
      some longData ∧
    longData.get "body" = some (String.mk (List.replicate 97 'a') ++ "...") ∧
    (String.mk (longPlain.data.take 97) ++ "...").length = 100 :=
  ⟨by decide, by decide,
   ((body_truncation (scenarioEnv dmTable sendOk 3) dmMessage longPlain [] longPlain longData
      (by decide) (by decide)).2.1 (by decide)).1,
   ((body_truncation (scenarioEnv dmTable sendOk 3) dmMessage longPlain [] longPlain longData
      (by decide) (by decide)).2.1 (by decide)).2⟩

theorem withDisplayName_DisplayName (u : User) :
    (withDisplayName u).DisplayName = displayNameOf u := by
  have h0 : u.DisplayName.length = 0 ↔ u.DisplayName = "" := by
    constructor
    · intro h
      have h1 : u.DisplayName.data = [] := List.length_eq_zero.mp h
      exact String.ext h1
    · intro h
      rw [h]; rfl
  unfold withDisplayName displayNameOf
  by_cases h : u.DisplayName = ""
  · simp [h]
  · have h1 : ¬ u.DisplayName.length = 0 := fun hl => h (h0.mp hl)
    simp [h, h1]

theorem withDisplayName_Name (u : User) : (withDisplayName u).Name = u.Name := by
  unfold withDisplayName
  split <;> rfl

/-- C8: with `D` the author's display name, or the name when the display name is empty:
in a direct-message channel the title is `@D`, the path `/users/name` and the body before
truncation is the plain text; in any other channel whose path `P` the repository returns,
the title is `#P`, the path `/channels/P` and the body before truncation is
`D: plain`. -/
theorem title_path_body (env : Env) (message : Message) (plain : String)
    (embedded : List EmbeddedInfo) (ch : Channel) (mUser0 : User)
    (hch : env.repo.GetChannel message.ChannelID = .ok ch)
    (hu : env.repo.GetUser message.UserID = .ok mUser0) :
    (ch.IsDM = true →
      ∃ d, (processMessageCreated env message plain embedded).data = some d ∧
        d.get "title" = some ("@" ++ displayNameOf mUser0) ∧
        d.get "path" = some ("/users/" ++ mUser0.Name) ∧
        (processMessageCreated env message plain embedded).body = some plain) ∧
    (ch.IsDM = false → ∀ P, env.repo.GetChannelPath message.ChannelID = .ok P →
      ∃ d, (processMessageCreated env message plain embedded).data = some d ∧
        d.get "title" = some ("#" ++ P) ∧
        d.get "path" = some ("/channels/" ++ P) ∧
        (processMessageCreated env message plain embedded).body =
          some (displayNameOf mUser0 ++ ": " ++ plain)) := by
  have key : ∀ d, (processMessageCreated env message plain embedded).data = some d →
      ∃ data1 body, d.get "title" = data1.get "title" ∧ d.get "path" = data1.get "path" ∧
        (processMessageCreated env message plain embedded).body = some body ∧
        ((ch.IsDM = true ∧
          data1 = ((initData env (withDisplayName mUser0) message).set "title"
            ("@" ++ (withDisplayName mUser0).DisplayName)).set "path"
              ("/users/" ++ (withDisplayName mUser0).Name) ∧
          body = plain) ∨
        (ch.IsDM = false ∧ ∃ path, env.repo.GetChannelPath message.ChannelID = .ok path ∧
          data1 = ((initData env (withDisplayName mUser0) message).set "title"
            ("#" ++ path)).set "path" ("/channels/" ++ path) ∧
          body = (withDisplayName mUser0).DisplayName ++ ": " ++ plain)) := by
    intro d hd
    obtain ⟨ch1, u1, data1, body, tr1, hch1, hu1, hR, hbody, hdata⟩ :=
      processMessageCreated_data env message plain embedded d hd
    rw [hch] at hch1
    rw [hu] at hu1
    cases hch1
    cases hu1
    refine ⟨data1, body, ?_, ?_, hbody, renderTitle_some _ _ _ _ _ _ _ _ _ _ hR⟩
    · rw [hdata, imageScan_get _ _ _ _ _ (by decide), DataMap.get_set_ne _ _ _ _ (by decide)]
    · rw [hdata, imageScan_get _ _ _ _ _ (by decide), DataMap.get_set_ne _ _ _ _ (by decide)]
  constructor
  · intro hdm
    obtain ⟨d, hd⟩ := processMessageCreated_data_isSome env message plain embedded ch mUser0
      hch hu (Or.inl hdm)
    obtain ⟨data1, body, ht, hp, hbody, hcase⟩ := key d hd
    rcases hcase with ⟨_, h1, h2⟩ | ⟨hf, _⟩
    · refine ⟨d, hd, ?_, ?_, ?_⟩
      · rw [ht, h1, DataMap.get_set_ne _ _ _ _ (by decide), DataMap.get_set_self,
          withDisplayName_DisplayName]
      · rw [hp, h1, DataMap.get_set_self, withDisplayName_Name]
      · rw [hbody, h2]
    · rw [hdm] at hf
      cases hf
  · intro hdm P hP
    obtain ⟨d, hd⟩ := processMessageCreated_data_isSome env message plain embedded ch mUser0
      hch hu (Or.inr ⟨P, hP⟩)
    obtain ⟨data1, body, ht, hp, hbody, hcase⟩ := key d hd
    rcases hcase with ⟨ht1, _⟩ | ⟨_, path, hpath, h1, h2⟩
    · rw [hdm] at ht1
      cases ht1
    · rw [hP] at hpath
      cases hpath
      refine ⟨d, hd, ?_, ?_, ?_⟩
      · rw [ht, h1, DataMap.get_set_ne _ _ _ _ (by decide), DataMap.get_set_self]
      · rw [hp, h1, DataMap.get_set_self]
      · rw [hbody, h2, withDisplayName_DisplayName]

/-- C8, witness: `alice` (empty display name) writes `hi` in a direct-message channel;
`bob` (display name `Bob`) writes `yo` in the channel `gps/random`. -/
theorem title_path_body_witness :
    (∃ d, (processMessageCreated (scenarioEnv dmTable sendOk 3) dmMessage "hi" []).data =
        some d ∧
      d.get "title" = some "@alice" ∧ d.get "path" = some "/users/alice" ∧
      (processMessageCreated (scenarioEnv dmTable sendOk 3) dmMessage "hi" []).body =
        some "hi") ∧
    (∃ d, (processMessageCreated (scenarioEnv normalTable sendOk 3) messageByB "yo" []).data =
        some d ∧
      d.get "title" = some "#gps/random" ∧ d.get "path" = some "/channels/gps/random" ∧
      (processMessageCreated (scenarioEnv normalTable sendOk 3) messageByB "yo" []).body =
        some "Bob: yo") :=
  ⟨(title_path_body (scenarioEnv dmTable sendOk 3) dmMessage "hi" []
      ⟨20, false, false, true⟩ ⟨1, "alice", ""⟩ rfl rfl).1 rfl,
   (title_path_body (scenarioEnv normalTable sendOk 3) messageByB "yo" []
      publicChannel ⟨2, "bob", "Bob"⟩ rfl rfl).2 rfl "gps/random" rfl⟩

/-- C9: the `image` entry of the data map is present exactly when some embed is a `file`
embed whose file metadata exists and has a thumbnail, and its value is the thumbnail URL
of the first such embed in list order. -/
theorem image_first_thumbnail (env : Env) (message : Message) (plain : String)
    (embedded : List EmbeddedInfo) (d : DataMap)
    (hd : (processMessageCreated env message plain embedded).data = some d) :
    ((d.get "image").isSome = true ↔ ∃ v ∈ embedded, hasThumbnail env v = true) ∧
    d.get "image" = (embedded.find? (hasThumbnail env)).map (thumbnailURL env) ∧
    (∀ pre v post, embedded = pre ++ v :: post → (∀ w ∈ pre, hasThumbnail env w = false) →
      hasThumbnail env v = true →
      d.get "image" = some (env.origin ++ "/api/1.0/files/" ++ v.ID ++ "/thumbnail")) := by
  obtain ⟨ch, mUser0, data1, body, tr1, _, _, hR, _, hdata⟩ :=
    processMessageCreated_data env message plain embedded d hd
  have hnone : (data1.set "body" (truncateBody body)).get "image" = none := by
    rw [DataMap.get_set_ne _ _ _ _ (by decide)]
    rcases renderTitle_some _ _ _ _ _ _ _ _ _ _ hR with ⟨_, h1, _⟩ | ⟨_, path, _, h1, _⟩
    · rw [h1, DataMap.get_set_ne _ _ _ _ (by decide), DataMap.get_set_ne _ _ _ _ (by decide)]
      simp [initData, DataMap.get]
    · rw [h1, DataMap.get_set_ne _ _ _ _ (by decide), DataMap.get_set_ne _ _ _ _ (by decide)]
      simp [initData, DataMap.get]
  have hget : d.get "image" = (embedded.find? (hasThumbnail env)).map (thumbnailURL env) := by
    rw [hdata, imageScan_fst]
    cases embedded.find? (hasThumbnail env) with
    | none => simpa using hnone
    | some v => simp [DataMap.get_set_self]
  refine ⟨?_, hget, ?_⟩
  · rw [hget]
    simp [List.find?_isSome]
  · intro pre v post hsplit hpre hv
    rw [hget, hsplit]
    have hf : (pre ++ v :: post).find? (hasThumbnail env) = some v := by
      rw [List.find?_append]
      have hp : pre.find? (hasThumbnail env) = none := by
        rw [List.find?_eq_none]
        intro w hw
        simp [hpre w hw]
      simp [hp, List.find?_cons, hv]
    rw [hf]
    rfl

/-- C9, witness: the first file embed `f1` has no thumbnail, the second one `f2` has; the
image is the thumbnail of `f2`. -/
theorem image_first_thumbnail_witness :
    (processMessageCreated (scenarioEnv fileTable sendOk 3) messageByA "hi" fileEmbeds).data =
      some fileData ∧
    fileData.get "image" = some "https://q.example/api/1.0/files/f2/thumbnail" ∧
    ((fileData.get "image").isSome = true ↔
      ∃ v ∈ fileEmbeds, hasThumbnail (scenarioEnv fileTable sendOk 3) v = true) :=
  ⟨by decide,
   (image_first_thumbnail (scenarioEnv fileTable sendOk 3) messageByA "hi" fileEmbeds fileData
      (by decide)).2.2 [⟨"file", "f1"⟩, ⟨"user", "B"⟩] ⟨"file", "f2"⟩ [] rfl (by decide)
      (by decide),
   (image_first_thumbnail (scenarioEnv fileTable sendOk 3) messageByA "hi" fileEmbeds fileData
      (by decide)).1⟩

/-! ## The listener -/

/-- An event with a missing or mistyped field ends the loop in a panic at its type
assertion, whatever follows. -/
theorem listener_cons_malformed (env : Env) (ev : Event) (rest : List Event)
    (h : ev.wellTyped = false) : listener env (ev :: rest) = ⟨[], .assertionPanic⟩ := by
  unfold Event.wellTyped at h
  rw [listener]
  cases hm : assertMessage (ev.field "message") with
  | none => rfl
  | some m =>
    cases hp : assertString (ev.field "plain") with
    | none => rfl
    | some p =>
      cases he : assertEmbedded (ev.field "embedded") with
      | none => rfl
      | some e => simp [hm, hp, he] at h

/-- An event whose fields pass the type assertions starts a goroutine; the loop goes on
unless that goroutine dereferences a nil pointer. -/
theorem listener_cons_wellTyped (env : Env) (ev : Event) (rest : List Event)
    (h : ev.wellTyped = true) :
    ∃ m p e, ev.args = some (m, p, e) ∧
      listener env (ev :: rest) =
        if processPanics env m e then ⟨[(m, p, e)], .nilDereference⟩
        else ⟨(m, p, e) :: (listener env rest).started, (listener env rest).ended⟩ := by
  unfold Event.wellTyped at h
  unfold Event.args
  rw [listener]
  cases hm : assertMessage (ev.field "message") with
  | none => simp [hm] at h
  | some m =>
    cases hp : assertString (ev.field "plain") with
    | none => simp [hp] at h
    | some p =>
      cases he : assertEmbedded (ev.field "embedded") with
      | none => simp [he] at h
      | some e => exact ⟨m, p, e, rfl, rfl⟩

theorem imageScanPanics_nonNil (env : Env) (es : List EmbeddedInfo) :
    imageScanPanics env (es.map some) = false := by
  induction es with
  | nil => rfl
  | cons v vs ih =>
    simp only [List.map_cons, imageScanPanics]
    split
    · split
      · split
        · rfl
        · exact ih
      · exact ih
    · exact ih

theorem expandMentionsPanics_nonNil (env : Env) (q : UsersQuery) (es : List EmbeddedInfo) :
    expandMentionsPanics env q (es.map some) = false := by
  induction es with
  | nil => rfl
  | cons v vs ih =>
    simp only [List.map_cons, expandMentionsPanics]
    split
    · exact ih
    · split
      · split
        · rfl
        · exact ih
      · exact ih

/-- A call of `processMessageCreated` with a message and embeds that are not nil, which
is what the definition `processMessageCreated` above embeds, dereferences no nil
pointer. -/
theorem processPanics_nonNil (env : Env) (message : Message) (es : List EmbeddedInfo) :
    processPanics env (some message) (es.map some) = false := by
  simp only [processPanics]
  cases env.repo.GetChannel message.ChannelID with
  | error e => rfl
  | ok ch =>
    simp only
    cases env.repo.GetUser message.UserID with
    | error e => rfl
    | ok u =>
      simp only
      cases (if ch.IsDM then Except.ok "" else env.repo.GetChannelPath message.ChannelID) with
      | error e => rfl
      | ok path =>
        simp only [imageScanPanics_nonNil, Bool.false_eq_true, if_false]
        split
        · rfl
        · split
          · rfl
          · cases env.repo.GetUserIDs (activeNotBot.SubscriberOf ch.ID) with
            | error e => rfl
            | ok users => exact expandMentionsPanics_nonNil env activeNotBot es

/-- The fields of an event can pass the three type assertions and still end the process:
a nil `*model.Message` is dereferenced at line 75, a nil element of the embeds at line
127. -/
theorem listener_nil_dereference :
    nilMessageEvent.wellTyped = true ∧ nilEmbedEvent.wellTyped = true ∧
    listener (scenarioEnv normalTable sendOk 3) [nilMessageEvent, goodEvent] =
      ⟨[(none, "hi", [])], .nilDereference⟩ ∧
    listener (scenarioEnv normalTable sendOk 3) [nilEmbedEvent, goodEvent] =
      ⟨[(some messageByA, "hi", [some ⟨"user", "B"⟩, none])], .nilDereference⟩ := by
  decide

/-- C10, on the code: an event whose `plain` field has another type makes the listener
panic at its type assertion; the well-typed event that follows is never handed to
`processMessageCreated`, although on its own it is processed and dropping the malformed
event would leave it to be processed. -/
theorem listener_panics_on_malformed :
    mistypedEvent.wellTyped = false ∧
    (listener (scenarioEnv normalTable sendOk 3) [mistypedEvent, goodEvent]).ended =
      .assertionPanic ∧
    (listener (scenarioEnv normalTable sendOk 3) [mistypedEvent, goodEvent]).started = [] ∧
    listener (scenarioEnv normalTable sendOk 3) [goodEvent] =
      ⟨[(some messageByA, "hi", [])], .closed⟩ := by
  decide

/-- C10, amended: an event with a missing or mistyped field is not dropped.  No
processing is started for it nor for any event after it (what was started belongs to the
events before it, in order), and the listener does not go on: it never ends by the close
of the channel, and when the events before were all received it ends in the panic of the
type assertion. -/
theorem listener_malformed_panics (env : Env) (pre : List Event) (bad : Event)
    (post : List Event) (hbad : bad.wellTyped = false) :
    listener env (pre ++ bad :: post) = listener env (pre ++ [bad]) ∧
    (listener env (pre ++ bad :: post)).ended ≠ .closed ∧
    (listener env (pre ++ bad :: post)).started <+: pre.filterMap Event.args ∧
    ((listener env pre).ended = .closed →
      listener env (pre ++ bad :: post) =
        ⟨(listener env pre).started, .assertionPanic⟩) := by
  induction pre with
  | nil =>
    simp only [List.nil_append]
    rw [listener_cons_malformed env bad post hbad, listener_cons_malformed env bad [] hbad]
    refine ⟨rfl, by simp, by simp, fun _ => rfl⟩
  | cons ev pre ih =>
    obtain ⟨ih1, ih2, ih3, ih4⟩ := ih
    simp only [List.cons_append]
    cases hev : ev.wellTyped with
    | false =>
      rw [listener_cons_malformed env ev _ hev, listener_cons_malformed env ev _ hev,
        listener_cons_malformed env ev pre hev]
      refine ⟨rfl, by simp, by simp, fun h => by simp at h⟩
    | true =>
      obtain ⟨m, p, e, ha, hl⟩ := listener_cons_wellTyped env ev (pre ++ bad :: post) hev
      obtain ⟨m1, p1, e1, ha1, hl1⟩ := listener_cons_wellTyped env ev (pre ++ [bad]) hev
      obtain ⟨m2, p2, e2, ha2, hl2⟩ := listener_cons_wellTyped env ev pre hev
      rw [ha] at ha1 ha2
      cases ha1
      cases ha2
      by_cases hp : processPanics env m e = true
      · rw [if_pos hp] at hl hl1 hl2
        rw [hl, hl1, hl2, List.filterMap_cons, ha]
        refine ⟨rfl, by simp, by simp, fun h => by simp at h⟩
      · rw [if_neg hp] at hl hl1 hl2
        rw [hl, hl1, hl2, List.filterMap_cons, ha]
        refine ⟨by rw [ih1], ih2, ?_, ?_⟩
        · obtain ⟨t, ht⟩ := ih3
          exact ⟨t, by rw [List.cons_append, ht]⟩
        · intro hclosed
          rw [ih4 hclosed]

/-- C10, amended, witness: two well-typed events are received and processed; the event
without `embedded` field after them ends the listener in a panic, and the event after it
is not received. -/
theorem listener_malformed_panics_witness :
    incompleteEvent.wellTyped = false ∧
    (listener (scenarioEnv normalTable sendOk 3) [goodEvent, goodEvent]).ended = .closed ∧
    (listener (scenarioEnv normalTable sendOk 3) [goodEvent, goodEvent]).started =
      [(some messageByA, "hi", []), (some messageByA, "hi", [])] ∧
    listener (scenarioEnv normalTable sendOk 3)
        ([goodEvent, goodEvent] ++ incompleteEvent :: [goodEvent]) =
      ⟨(listener (scenarioEnv normalTable sendOk 3) [goodEvent, goodEvent]).started,
        .assertionPanic⟩ :=
  ⟨by decide, by decide, by decide,
   (listener_malformed_panics (scenarioEnv normalTable sendOk 3) [goodEvent, goodEvent]
      incompleteEvent [goodEvent] (by decide)).2.2.2 (by decide)⟩
/-! ## Failing lookups before the sending -/

/-- The mention loop appends no sending effect. -/
theorem expandMentions_appends (env : Env) (q : UsersQuery) :
    ∀ (vs : List EmbeddedInfo) (targets : UUIDSet) (tr : List Effect),
      ∃ new, (expandMentions env q vs targets tr).2 = tr ++ new ∧
        ∀ e ∈ new, e.isSending = false := by
  intro vs
  induction vs with
  | nil => intro targets tr; exact ⟨[], by simp [expandMentions], by simp⟩
  | cons v vs ih =>
    intro targets tr
    unfold expandMentions
    by_cases hu : v.Typ = "user"
    · simp only [hu, if_true]
      cases env.FromString v.ID with
      | none => exact ih _ _
      | some uid => exact ih _ _
    · simp only [hu, if_false]
      by_cases hg : v.Typ = "group"
      · simp only [hg, if_true]
        cases env.repo.GetUserIDs (q.GMemberOf (env.FromStringOrNil v.ID)) with
        | error e => exact ⟨_, rfl, by simp [Effect.isSending]⟩
        | ok gs =>
          obtain ⟨new, hnew, hp⟩ := ih (targets.Add gs)
            (tr ++ [Effect.getUserIDs (q.GMemberOf (env.FromStringOrNil v.ID))])
          refine ⟨Effect.getUserIDs (q.GMemberOf (env.FromStringOrNil v.ID)) :: new, ?_, ?_⟩
          · simp only [hnew, List.append_assoc, List.singleton_append]
          · intro x hx
            rcases List.mem_cons.mp hx with hx | hx
            · rw [hx]; rfl
            · exact hp x hx
      · simp only [hg, if_false]
        exact ih _ _

/-- The `switch` over the channel kind appends no sending effect. -/
theorem branchTargets_appends (env : Env) (ch : Channel) (message : Message)
    (embedded : List EmbeddedInfo) (tr : List Effect) :
    ∃ new, (branchTargets env ch message embedded tr).2 = tr ++ new ∧
      ∀ e ∈ new, e.isSending = false := by
  unfold branchTargets
  by_cases hF : ch.IsForced = true
  · simp only [hF, if_true]
    cases env.repo.GetUserIDs activeNotBot with
    | error e => exact ⟨_, rfl, by simp [Effect.isSending]⟩
    | ok users => exact ⟨_, rfl, by simp [Effect.isSending]⟩
  · simp only [hF]
    by_cases hP : (!ch.IsPublic) = true
    · simp only [hP, if_true]
      cases env.repo.GetUserIDs (activeNotBot.CMemberOf ch.ID) with
      | error e => exact ⟨_, rfl, by simp [Effect.isSending]⟩
      | ok users => exact ⟨_, rfl, by simp [Effect.isSending]⟩
    · simp only [hP, Bool.false_eq_true, if_false]
      cases env.repo.GetUserIDs (activeNotBot.SubscriberOf ch.ID) with
      | error e => exact ⟨_, rfl, by simp [Effect.isSending]⟩
      | ok users =>
        simp only
        obtain ⟨new, hnew, hp⟩ := expandMentions_appends env activeNotBot embedded
          ((∅ : UUIDSet).Add users) (tr ++ [Effect.getUserIDs (activeNotBot.SubscriberOf ch.ID)])
        rcases hE : expandMentions env activeNotBot embedded ((∅ : UUIDSet).Add users)
          (tr ++ [Effect.getUserIDs (activeNotBot.SubscriberOf ch.ID)]) with ⟨e1, tr1⟩
        rw [hE] at hnew
        simp only at hnew
        subst hnew
        have hp1 : ∀ e ∈ Effect.getUserIDs (activeNotBot.SubscriberOf ch.ID) :: new,
            e.isSending = false := by
          intro x hx
          rcases List.mem_cons.mp hx with hx | hx
          · rw [hx]; rfl
          · exact hp x hx
        cases e1 with
        | none =>
          exact ⟨Effect.getUserIDs (activeNotBot.SubscriberOf ch.ID) :: new,
            by simp only [List.append_assoc, List.singleton_append], hp1⟩
        | some t1 =>
          simp only
          cases env.repo.GetMuteUserIDs message.ChannelID with
          | error e =>
            refine ⟨Effect.getUserIDs (activeNotBot.SubscriberOf ch.ID) :: new ++
              [Effect.getMuteUserIDs message.ChannelID,
                Effect.logError "failed to GetMuteUserIDs"], by simp, ?_⟩
            intro x hx
            rcases List.mem_append.mp hx with hx | hx
            · exact hp1 x hx
            · simp only [List.mem_cons, List.mem_singleton, List.not_mem_nil, or_false] at hx
              rcases hx with hx | hx <;> rw [hx] <;> rfl
          | ok muted =>
            refine ⟨Effect.getUserIDs (activeNotBot.SubscriberOf ch.ID) :: new ++
              [Effect.getMuteUserIDs message.ChannelID], by simp, ?_⟩
            intro x hx
            rcases List.mem_append.mp hx with hx | hx
            · exact hp1 x hx
            · simp only [List.mem_singleton] at hx
              rw [hx]; rfl

/-- The target computation appends no sending effect. -/
theorem computeTargets_appends (env : Env) (ch : Channel) (message : Message)
    (embedded : List EmbeddedInfo) (tr : List Effect) :
    ∃ new, (computeTargets env ch message embedded tr).2 = tr ++ new ∧
      ∀ e ∈ new, e.isSending = false := by
  obtain ⟨new, hnew, hp⟩ := branchTargets_appends env ch message embedded tr
  unfold computeTargets
  rcases hB : branchTargets env ch message embedded tr with ⟨b1, tr1⟩
  rw [hB] at hnew
  cases b1 <;> exact ⟨new, hnew, hp⟩

/-- The rendering of title and path appends no sending effect. -/
theorem renderTitle_appends (env : Env) (ch : Channel) (u : User) (message : Message)
    (plain : String) (data : DataMap) (tr : List Effect) :
    ∃ new, (renderTitle env ch u message plain data tr).2 = tr ++ new ∧
      ∀ e ∈ new, e.isSending = false := by
  unfold renderTitle
  by_cases hd : ch.IsDM = true
  · simp only [hd, if_true]
    exact ⟨[], by simp, by simp⟩
  · simp only [hd, Bool.false_eq_true, if_false]
    cases env.repo.GetChannelPath message.ChannelID with
    | error e => exact ⟨_, rfl, by simp [Effect.isSending]⟩
    | ok path => exact ⟨_, rfl, by simp [Effect.isSending]⟩

/-- The shape of every run: effects that do not belong to the sending, and then, only
when the target set was computed, the fan-out over that set with the rendered data. -/
theorem processMessageCreated_shape (env : Env) (message : Message) (plain : String)
    (embedded : List EmbeddedInfo) :
    ∃ pre, (∀ e ∈ pre, e.isSending = false) ∧
      (((processMessageCreated env message plain embedded).targets = none ∧
          (processMessageCreated env message plain embedded).trace = pre) ∨
        ∃ d t, (processMessageCreated env message plain embedded).data = some d ∧
          (processMessageCreated env message plain embedded).targets = some t ∧
          (processMessageCreated env message plain embedded).trace = fanOut env d t pre) := by
  unfold processMessageCreated
  cases env.repo.GetChannel message.ChannelID with
  | error e => exact ⟨_, by simp [Effect.isSending], Or.inl ⟨rfl, rfl⟩⟩
  | ok ch =>
    simp only
    cases env.repo.GetUser message.UserID with
    | error e => exact ⟨_, by simp [Effect.isSending], Or.inl ⟨rfl, rfl⟩⟩
    | ok mUser0 =>
      simp only
      obtain ⟨new1, hnew1, hp1⟩ := renderTitle_appends env ch (withDisplayName mUser0) message
        plain (initData env (withDisplayName mUser0) message)
        [Effect.getChannel message.ChannelID, Effect.getUser message.UserID]
      rcases hR : renderTitle env ch (withDisplayName mUser0) message plain
        (initData env (withDisplayName mUser0) message)
        [Effect.getChannel message.ChannelID, Effect.getUser message.UserID] with ⟨r1, tr1⟩
      rw [hR] at hnew1
      simp only at hnew1
      have hq1 : ∀ e ∈ tr1, e.isSending = false := by
        intro x hx
        rw [hnew1] at hx
        rcases List.mem_append.mp hx with hx | hx
        · simp only [List.mem_cons, List.mem_singleton, List.not_mem_nil, or_false] at hx
          rcases hx with hx | hx <;> rw [hx] <;> rfl
        · exact hp1 x hx
      cases r1 with
      | none => exact ⟨tr1, hq1, Or.inl ⟨rfl, rfl⟩⟩
      | some db =>
        obtain ⟨data1, body⟩ := db
        simp only
        obtain ⟨new2, hnew2, hp2⟩ :=
          imageScan_appends env (DataMap.set data1 "body" (truncateBody body)) embedded tr1
        rcases hI : imageScan env (DataMap.set data1 "body" (truncateBody body)) embedded tr1
          with ⟨data3, tr2⟩
        rw [hI] at hnew2
        simp only at hnew2
        have hq2 : ∀ e ∈ tr2, e.isSending = false := by
          intro x hx
          rw [hnew2] at hx
          rcases List.mem_append.mp hx with hx | hx
          · exact hq1 x hx
          · obtain ⟨id, hid⟩ := hp2 x hx
            rw [hid]; rfl
        simp only
        obtain ⟨new3, hnew3, hp3⟩ := computeTargets_appends env ch message embedded tr2
        rcases hC : computeTargets env ch message embedded tr2 with ⟨c1, tr3⟩
        rw [hC] at hnew3
        simp only at hnew3
        have hq3 : ∀ e ∈ tr3, e.isSending = false := by
          intro x hx
          rw [hnew3] at hx
          rcases List.mem_append.mp hx with hx | hx
          · exact hq2 x hx
          · exact hp3 x hx
        cases c1 with
        | none => exact ⟨tr3, hq3, Or.inl ⟨rfl, rfl⟩⟩
        | some t => exact ⟨tr3, hq3, Or.inr ⟨data3, t, rfl, rfl, rfl⟩⟩

/-- A mention loop that ends normally met no failing group lookup. -/
theorem expandMentions_some (env : Env) (q : UsersQuery) :
    ∀ (vs : List EmbeddedInfo) (targets : UUIDSet) (tr : List Effect) (t1 : UUIDSet),
      (expandMentions env q vs targets tr).1 = some t1 →
      vs.any (fun v => decide (v.Typ = "group") &&
        failed (env.repo.GetUserIDs (q.GMemberOf (env.FromStringOrNil v.ID)))) = false := by
  intro vs
  induction vs with
  | nil => intro targets tr t1 _; rfl
  | cons v vs ih =>
    intro targets tr t1 h
    unfold expandMentions at h
    rw [List.any_cons]
    by_cases hu : v.Typ = "user"
    · have hng : ¬ v.Typ = "group" := by rw [hu]; decide
      simp only [hu, if_true] at h
      have hrec : vs.any (fun v => decide (v.Typ = "group") &&
          failed (env.repo.GetUserIDs (q.GMemberOf (env.FromStringOrNil v.ID)))) = false := by
        cases hF : env.FromString v.ID with
        | none => rw [hF] at h; exact ih _ _ _ h
        | some uid => rw [hF] at h; exact ih _ _ _ h
      simp [hng, hrec]
    · simp only [hu, if_false] at h
      by_cases hg : v.Typ = "group"
      · simp only [hg, if_true] at h
        cases hq : env.repo.GetUserIDs (q.GMemberOf (env.FromStringOrNil v.ID)) with
        | error e => rw [hq] at h; simp at h
        | ok gs =>
          rw [hq] at h
          rw [ih _ _ _ h]
          simp [failed]
      · simp only [hg, if_false] at h
        simp [hg, ih _ _ _ h]

/-- A `switch` that ends normally met no failing lookup of its branch. -/
theorem branchTargets_some (env : Env) (ch : Channel) (message : Message)
    (embedded : List EmbeddedInfo) (b : UUIDSet)
    (h : (branchTargets env ch message embedded []).1 = some b) :
    (if ch.IsForced then failed (env.repo.GetUserIDs activeNotBot)
     else if !ch.IsPublic then failed (env.repo.GetUserIDs (activeNotBot.CMemberOf ch.ID))
     else
       failed (env.repo.GetUserIDs (activeNotBot.SubscriberOf ch.ID)) ||
       embedded.any (fun v => decide (v.Typ = "group") &&
         failed (env.repo.GetUserIDs (activeNotBot.GMemberOf (env.FromStringOrNil v.ID)))) ||
       failed (env.repo.GetMuteUserIDs message.ChannelID)) = false := by
  unfold branchTargets at h
  by_cases hF : ch.IsForced = true
  · simp only [hF, if_true] at h ⊢
    cases hq : env.repo.GetUserIDs activeNotBot with
    | error e => rw [hq] at h; simp at h
    | ok users => rfl
  · simp only [hF, Bool.false_eq_true, if_false] at h ⊢
    by_cases hP : (!ch.IsPublic) = true
    · simp only [hP, if_true] at h ⊢
      cases hq : env.repo.GetUserIDs (activeNotBot.CMemberOf ch.ID) with
      | error e => rw [hq] at h; simp at h
      | ok users => rfl
    · simp only [hP, Bool.false_eq_true, if_false] at h ⊢
      cases hq : env.repo.GetUserIDs (activeNotBot.SubscriberOf ch.ID) with
      | error e => rw [hq] at h; simp at h
      | ok users =>
        rw [hq] at h
        simp only at h
        rcases hE : expandMentions env activeNotBot embedded ((∅ : UUIDSet).Add users)
          ([] ++ [Effect.getUserIDs (activeNotBot.SubscriberOf ch.ID)]) with ⟨e1, tr1⟩
        rw [hE] at h
        cases e1 with
        | none => simp at h
        | some t1 =>
          have hany := expandMentions_some env activeNotBot embedded _ _ t1
            (by rw [hE])
          cases hm : env.repo.GetMuteUserIDs message.ChannelID with
          | error e => rw [hm] at h; simp at h
          | ok muted =>
            rw [hany]
            simp [failed]

/-- A run that computed its target set met no failing lookup on the way. -/
theorem processMessageCreated_targets_some_lookups (env : Env) (message : Message)
    (plain : String) (embedded : List EmbeddedInfo) (t : UUIDSet)
    (h : (processMessageCreated env message plain embedded).targets = some t) :
    ∃ ch mUser0, env.repo.GetChannel message.ChannelID = .ok ch ∧
      env.repo.GetUser message.UserID = .ok mUser0 ∧
      (ch.IsDM = true ∨ ∃ path, env.repo.GetChannelPath message.ChannelID = .ok path) ∧
      ∃ b, (branchTargets env ch message embedded []).1 = some b := by
  unfold processMessageCreated at h
  cases hch : env.repo.GetChannel message.ChannelID with
  | error e => simp [hch] at h
  | ok ch =>
    simp only [hch] at h
    cases hu : env.repo.GetUser message.UserID with
    | error e => simp [hu] at h
    | ok mUser0 =>
      simp only [hu] at h
      rcases hR : renderTitle env ch (withDisplayName mUser0) message plain
        (initData env (withDisplayName mUser0) message)
        [Effect.getChannel message.ChannelID, Effect.getUser message.UserID] with ⟨r1, tr1⟩
      rw [hR] at h
      cases r1 with
      | none => simp at h
      | some db =>
        obtain ⟨data1, body⟩ := db
        simp only at h
        rcases hI : imageScan env (DataMap.set data1 "body" (truncateBody body)) embedded tr1
          with ⟨data3, tr2⟩
        rw [hI] at h
        simp only at h
        have hc := computeTargets_eq env ch message embedded tr2
        rcases hC : computeTargets env ch message embedded tr2 with ⟨c1, tr3⟩
        rw [hC] at h hc
        simp only at hc
        cases c1 with
        | none => simp at h
        | some t1 =>
          have hpath : ch.IsDM = true ∨
              ∃ path, env.repo.GetChannelPath message.ChannelID = .ok path := by
            rcases renderTitle_some _ _ _ _ _ _ _ _ _ _ hR with ⟨hd, _⟩ | ⟨_, path, hp, _⟩
            · exact Or.inl hd
            · exact Or.inr ⟨path, hp⟩
          refine ⟨ch, mUser0, rfl, rfl, hpath, ?_⟩
          cases hb : (branchTargets env ch message embedded []).1 with
          | none => rw [hb] at hc; simp at hc
          | some b => exact ⟨b, rfl⟩

/-- A failing lookup before the sending leaves the run without target set. -/
theorem preSendFailure_targets_none (env : Env) (message : Message) (plain : String)
    (embedded : List EmbeddedInfo) (h : preSendFailure env message embedded = true) :
    (processMessageCreated env message plain embedded).targets = none := by
  cases ht : (processMessageCreated env message plain embedded).targets with
  | none => rfl
  | some t =>
    exfalso
    obtain ⟨ch, mUser0, hch, hu, hpath, b, hb⟩ :=
      processMessageCreated_targets_some_lookups env message plain embedded t ht
    have hbr := branchTargets_some env ch message embedded b hb
    unfold preSendFailure at h
    rw [hch] at h
    simp only [hu, failed, Bool.false_or] at h
    have hp : (!ch.IsDM && failed (env.repo.GetChannelPath message.ChannelID)) = false := by
      rcases hpath with hd | ⟨path, hp⟩
      · simp [hd]
      · simp [hp, failed]
    simp only [failed] at hp hbr
    rw [hp, hbr] at h
    simp at h

/-- C11: if any repository lookup made before the sending fails (`GetChannel`, `GetUser`,
`GetChannelPath` outside direct messages, `GetUserIDs` of the selected branch or of a
mentioned group of a normal channel, `GetMuteUserIDs` on a normal channel), the run ends
without target set and its trace holds no device-token lookup, no provider call, no
counter increment and no unregistration. -/
theorem pre_send_failure_sends_nothing (env : Env) (message : Message) (plain : String)
    (embedded : List EmbeddedInfo) (h : preSendFailure env message embedded = true) :
    (processMessageCreated env message plain embedded).targets = none ∧
    (∀ e ∈ (processMessageCreated env message plain embedded).trace, e.isSending = false) ∧
    ((processMessageCreated env message plain embedded).trace.filter
      Effect.isDeviceLookup).length = 0 ∧
    providerCalls (processMessageCreated env message plain embedded).trace = 0 ∧
    ((processMessageCreated env message plain embedded).trace.filter
      Effect.isCounterInc).length = 0 ∧
    ∀ label, counterValue label (processMessageCreated env message plain embedded).trace = 0 := by
  have hnone := preSendFailure_targets_none env message plain embedded h
  obtain ⟨pre, hpre, hshape⟩ := processMessageCreated_shape env message plain embedded
  have htr : (processMessageCreated env message plain embedded).trace = pre := by
    rcases hshape with ⟨_, h1⟩ | ⟨d, t, _, h1, _⟩
    · exact h1
    · rw [hnone] at h1
      cases h1
  have hall : ∀ e ∈ (processMessageCreated env message plain embedded).trace,
      e.isSending = false := by
    rw [htr]; exact hpre
  refine ⟨hnone, hall, ?_, ?_, ?_, ?_⟩
  · rw [List.length_eq_zero, List.filter_eq_nil_iff]
    intro e he
    have := hall e he
    cases e <;> simp [Effect.isSending, Effect.isDeviceLookup] at this ⊢
  · unfold providerCalls
    rw [List.length_eq_zero, List.filter_eq_nil_iff]
    intro e he
    have := hall e he
    cases e <;> simp [Effect.isSending, Effect.isSend] at this ⊢
  · rw [List.length_eq_zero, List.filter_eq_nil_iff]
    intro e he
    have := hall e he
    cases e <;> simp [Effect.isSending, Effect.isCounterInc] at this ⊢
  · intro label
    unfold counterValue
    rw [List.count_eq_zero]
    intro hmem
    have := hall _ hmem
    simp [Effect.isSending] at this

/-- C11, witness: in the normal channel the lookup of the members of the mentioned group
`G` fails after the subscribers were read; the run stops there. -/
theorem pre_send_failure_sends_nothing_witness :
    preSendFailure groupFailEnv messageByA [⟨"group", "G"⟩] = true ∧
    (processMessageCreated groupFailEnv messageByA "hi" [⟨"group", "G"⟩]).targets = none ∧
    providerCalls (processMessageCreated groupFailEnv messageByA "hi" [⟨"group", "G"⟩]).trace =
      0 ∧
    (processMessageCreated groupFailEnv messageByA "hi" [⟨"group", "G"⟩]).trace =
      [Effect.getChannel 10, Effect.getUser 1, Effect.getChannelPath 10,
       Effect.getUserIDs (activeNotBot.SubscriberOf 10),
       Effect.getUserIDs (activeNotBot.GMemberOf 50),
       Effect.logError "failed to GetUserGroupMemberIDs"] :=
  ⟨by decide,
   (pre_send_failure_sends_nothing groupFailEnv messageByA "hi" [⟨"group", "G"⟩]
      (by decide)).1,
   (pre_send_failure_sends_nothing groupFailEnv messageByA "hi" [⟨"group", "G"⟩]
      (by decide)).2.2.2.1,
   by decide⟩

/-! ## Classification of provider errors and retries -/

theorem failedAttempts_cons (payload : Payload) (e : SendError) (errs : List SendError) :
    failedAttempts payload (e :: errs) =
      Effect.send payload (some e) :: Effect.counterInc "error" ::
        failedAttempts payload errs := by
  simp [failedAttempts]

theorem providerCalls_append (a b : List Effect) :
    providerCalls (a ++ b) = providerCalls a + providerCalls b := by
  simp [providerCalls]

theorem counterValue_append (label : String) (a b : List Effect) :
    counterValue label (a ++ b) = counterValue label a + counterValue label b := by
  simp [counterValue]

theorem providerCalls_failedAttempts (payload : Payload) (errs : List SendError) :
    providerCalls (failedAttempts payload errs) = errs.length := by
  induction errs with
  | nil => rfl
  | cons e errs ih =>
    rw [failedAttempts_cons]
    unfold providerCalls at ih ⊢
    simp [List.filter_cons, Effect.isSend, ih]

theorem counterValue_failedAttempts (payload : Payload) (errs : List SendError) :
    counterValue "error" (failedAttempts payload errs) = errs.length ∧
    counterValue "ok" (failedAttempts payload errs) = 0 := by
  induction errs with
  | nil => exact ⟨rfl, rfl⟩
  | cons e errs ih =>
    rw [failedAttempts_cons]
    unfold counterValue at ih ⊢
    simp [List.count_cons, ih.1, ih.2]

/-- An attempt that meets a transient error returns a non-permanent error. -/
theorem sendOperation_transient (env : Env) (payload : Payload) (token : String)
    (tr : List Effect) (e : SendError) (he : e.isTransient = true)
    (hS : env.Send tr payload = some e) :
    sendOperation env payload token tr =
      (.err (.fcm e), tr ++ [Effect.send payload (some e), Effect.counterInc "error"]) := by
  unfold sendOperation
  rw [hS]
  cases e <;> simp [SendError.isTransient] at he ⊢

/-- An attempt that meets an invalid-argument error returns a permanent error. -/
theorem sendOperation_invalid (env : Env) (payload : Payload) (token : String)
    (tr : List Effect) (hS : env.Send tr payload = some .invalidArgument) :
    sendOperation env payload token tr =
      (.permanent (.fcm .invalidArgument),
        tr ++ [Effect.send payload (some .invalidArgument), Effect.counterInc "error"]) := by
  unfold sendOperation
  rw [hS]

/-- An attempt that succeeds returns `nil`. -/
theorem sendOperation_ok (env : Env) (payload : Payload) (token : String)
    (tr : List Effect) (hS : env.Send tr payload = none) :
    sendOperation env payload token tr =
      (.nil, tr ++ [Effect.send payload none, Effect.counterInc "ok"]) := by
  unfold sendOperation
  rw [hS]

/-- The retry loop over a run of transient errors that ends in a success or in an
invalid-argument error, within the budget. -/
theorem Retry_transient_then_final (env : Env) (payload : Payload) (token : String) :
    ∀ (errs : List SendError) (budget : Nat) (tr : List Effect) (fin : Option SendError),
      (∀ e ∈ errs, e.isTransient = true) →
      (∀ i : Fin errs.length,
        env.Send (tr ++ failedAttempts payload (errs.take i)) payload = some (errs.get i)) →
      env.Send (tr ++ failedAttempts payload errs) payload = fin →
      (fin = none ∨ fin = some .invalidArgument) →
      errs.length ≤ budget →
      Retry (sendOperation env payload token) budget tr =
        (fin.map Error.fcm,
          tr ++ failedAttempts payload errs ++
            [Effect.send payload fin, Effect.counterInc (if fin = none then "ok" else "error")]) := by
  intro errs
  induction errs with
  | nil =>
    intro budget tr fin _ _ hfin hfin2 _
    simp only [failedAttempts, List.flatMap_nil, List.append_nil] at hfin ⊢
    rcases hfin2 with h | h
    · subst h
      rw [Retry_nil (sendOperation_ok env payload token tr hfin)]
      rfl
    · subst h
      rw [Retry_permanent (sendOperation_invalid env payload token tr hfin)]
      rfl
  | cons e rest ih =>
    intro budget tr fin htrans hreply hfin hfin2 hbudget
    cases budget with
    | zero => simp at hbudget
    | succ n =>
      have h0 := hreply ⟨0, by simp⟩
      simp only [List.take_zero, failedAttempts, List.flatMap_nil, List.append_nil] at h0
      have h0' : env.Send tr payload = some e := h0
      have he : e.isTransient = true := htrans e (List.mem_cons_self _ _)
      rw [Retry_err_succ (sendOperation_transient env payload token tr e he h0')]
      have hrest : ∀ i : Fin rest.length,
          env.Send ((tr ++ [Effect.send payload (some e), Effect.counterInc "error"]) ++
            failedAttempts payload (rest.take i)) payload = some (rest.get i) := by
        intro i
        have hi := hreply ⟨i.val + 1, by simp⟩
        simp only [List.take_succ_cons, failedAttempts_cons] at hi
        simpa [List.append_assoc] using hi
      have hfin' : env.Send ((tr ++ [Effect.send payload (some e), Effect.counterInc "error"]) ++
          failedAttempts payload rest) payload = fin := by
        rw [failedAttempts_cons] at hfin
        simpa [List.append_assoc] using hfin
      rw [ih n _ fin (fun x hx => htrans x (List.mem_cons_of_mem _ hx)) hrest hfin' hfin2
        (by simpa using hbudget), failedAttempts_cons]
      simp [List.append_assoc]

/-- C12: an attempt that meets an invalid-argument error returns a permanent error, and
an attempt that meets any error that is neither invalid-argument nor not-registered
returns a non-permanent error.  Hence a delivery whose provider answers `k` transient
errors and then, within the retry budget, a success or an invalid-argument error calls
the provider `k + 1` times, one call after the other, and stops: the counter grows by `k`
for `error` and `1` for `ok` in case of success, and by `k + 1` for `error` in case of an
invalid argument (one single call when `k = 0`). -/
theorem send_retry_classification (env : Env) (payload : Payload) (token : String)
    (tr : List Effect) (errs : List SendError) (fin : Option SendError)
    (htrans : ∀ e ∈ errs, e.isTransient = true)
    (hreply : ∀ i : Fin errs.length,
      env.Send (tr ++ failedAttempts { payload with Token := token } (errs.take i))
        { payload with Token := token } = some (errs.get i))
    (hfin : env.Send (tr ++ failedAttempts { payload with Token := token } errs)
      { payload with Token := token } = fin)
    (hfin2 : fin = none ∨ fin = some .invalidArgument)
    (hbudget : errs.length ≤ env.retryBudget) :
    (∀ tr0 e, e.isTransient = true → env.Send tr0 { payload with Token := token } = some e →
      (sendOperation env { payload with Token := token } token tr0).1 = .err (.fcm e)) ∧
    (∀ tr0, env.Send tr0 { payload with Token := token } = some .invalidArgument →
      (sendOperation env { payload with Token := token } token tr0).1 =
        .permanent (.fcm .invalidArgument)) ∧
    sendToToken env payload token tr =
      tr ++ failedAttempts { payload with Token := token } errs ++
        [Effect.send { payload with Token := token } fin,
         Effect.counterInc (if fin = none then "ok" else "error")] ++
        (if fin = none then [] else [Effect.logError "an error occurred in sending fcm"]) ∧
    providerCalls (sendToToken env payload token tr) = providerCalls tr + (errs.length + 1) ∧
    counterValue "error" (sendToToken env payload token tr) =
      counterValue "error" tr + errs.length + (if fin = none then 0 else 1) ∧
    counterValue "ok" (sendToToken env payload token tr) =
      counterValue "ok" tr + (if fin = none then 1 else 0) := by
  have htrace : sendToToken env payload token tr =
      tr ++ failedAttempts { payload with Token := token } errs ++
        [Effect.send { payload with Token := token } fin,
         Effect.counterInc (if fin = none then "ok" else "error")] ++
        (if fin = none then [] else [Effect.logError "an error occurred in sending fcm"]) := by
    have hR := Retry_transient_then_final env { payload with Token := token } token errs
      env.retryBudget tr fin htrans hreply hfin hfin2 hbudget
    unfold sendToToken
    simp only [hR]
    rcases hfin2 with h | h <;> subst h <;> simp
  refine ⟨?_, ?_, htrace, ?_, ?_, ?_⟩
  · intro tr0 e he hS
    rw [sendOperation_transient env _ token tr0 e he hS]
  · intro tr0 hS
    rw [sendOperation_invalid env _ token tr0 hS]
  · rw [htrace, providerCalls_append, providerCalls_append, providerCalls_append,
      providerCalls_failedAttempts]
    rcases hfin2 with h | h <;> subst h <;> simp [providerCalls, Effect.isSend] <;> omega
  · rw [htrace, counterValue_append, counterValue_append, counterValue_append,
      (counterValue_failedAttempts _ errs).1]
    rcases hfin2 with h | h <;> subst h <;> simp [counterValue, List.count_cons]
  · rw [htrace, counterValue_append, counterValue_append, counterValue_append,
      (counterValue_failedAttempts _ errs).2]
    rcases hfin2 with h | h <;> subst h <;> simp [counterValue, List.count_cons]

/-- C12, witness (scenario 4): the provider is unavailable twice and then succeeds: three
provider calls, `error` grows by 2 and `ok` by 1.  A provider that answers invalid
argument is called once. -/
theorem send_retry_classification_witness :
    (sendToToken (scenarioEnv deliveryTable sendOkAfterTwo 3) deliveryPayload "T1" [] =
        [Effect.send deliveryPayload (some .serverUnavailable), Effect.counterInc "error",
         Effect.send deliveryPayload (some .serverUnavailable), Effect.counterInc "error",
         Effect.send deliveryPayload none, Effect.counterInc "ok"] ∧
      providerCalls
        (sendToToken (scenarioEnv deliveryTable sendOkAfterTwo 3) deliveryPayload "T1" []) =
          providerCalls [] + (2 + 1) ∧
      counterValue "error"
        (sendToToken (scenarioEnv deliveryTable sendOkAfterTwo 3) deliveryPayload "T1" []) =
          counterValue "error" [] + 2 + 0 ∧
      counterValue "ok"
        (sendToToken (scenarioEnv deliveryTable sendOkAfterTwo 3) deliveryPayload "T1" []) =
          counterValue "ok" [] + 1) ∧
    (sendToToken (scenarioEnv deliveryTable sendInvalid 3) deliveryPayload "T1" [] =
        [Effect.send deliveryPayload (some .invalidArgument), Effect.counterInc "error",
         Effect.logError "an error occurred in sending fcm"] ∧
      providerCalls
        (sendToToken (scenarioEnv deliveryTable sendInvalid 3) deliveryPayload "T1" []) =
          providerCalls [] + (0 + 1)) :=
  ⟨⟨(send_retry_classification (scenarioEnv deliveryTable sendOkAfterTwo 3) deliveryPayload
        "T1" [] [.serverUnavailable, .serverUnavailable] none (by decide) (by decide)
        (by decide) (Or.inl rfl) (by decide)).2.2.1,
     (send_retry_classification (scenarioEnv deliveryTable sendOkAfterTwo 3) deliveryPayload
        "T1" [] [.serverUnavailable, .serverUnavailable] none (by decide) (by decide)
        (by decide) (Or.inl rfl) (by decide)).2.2.2.1,
     (send_retry_classification (scenarioEnv deliveryTable sendOkAfterTwo 3) deliveryPayload
        "T1" [] [.serverUnavailable, .serverUnavailable] none (by decide) (by decide)
        (by decide) (Or.inl rfl) (by decide)).2.2.2.2.1,
     (send_retry_classification (scenarioEnv deliveryTable sendOkAfterTwo 3) deliveryPayload
        "T1" [] [.serverUnavailable, .serverUnavailable] none (by decide) (by decide)
        (by decide) (Or.inl rfl) (by decide)).2.2.2.2.2⟩,
   ⟨(send_retry_classification (scenarioEnv deliveryTable sendInvalid 3) deliveryPayload
        "T1" [] [] (some .invalidArgument) (by decide) (by decide)
        (by decide) (Or.inr rfl) (by decide)).2.2.1,
    (send_retry_classification (scenarioEnv deliveryTable sendInvalid 3) deliveryPayload
        "T1" [] [] (some .invalidArgument) (by decide) (by decide)
        (by decide) (Or.inr rfl) (by decide)).2.2.2.1⟩⟩

/-! ## Fan-out over the target users -/

/-- The sorted list of a target set has the members of the set. -/
theorem UUIDSet.mem_toSortedList (s : UUIDSet) (u : UUID) : u ∈ s.toSortedList ↔ u ∈ s := by
  obtain ⟨val, nodup⟩ := s
  induction val using Quot.inductionOn with
  | _ l =>
    show u ∈ List.insertionSort (· ≤ ·) l ↔ u ∈ l
    exact (List.perm_insertionSort _ l).mem_iff

/-- A retry loop only appends effects of a kind its operation only appends. -/
theorem Retry_forall (P : Effect → Prop) (op : List Effect → OpResult × List Effect)
    (hop : ∀ tr, ∃ new, (op tr).2 = tr ++ new ∧ ∀ e ∈ new, P e) :
    ∀ (budget : Nat) (tr : List Effect),
      ∃ new, (Retry op budget tr).2 = tr ++ new ∧ ∀ e ∈ new, P e := by
  intro budget
  induction budget with
  | zero =>
    intro tr
    obtain ⟨new, hnew, hp⟩ := hop tr
    rcases h : op tr with ⟨r, tr1⟩
    rw [h] at hnew
    simp only at hnew
    subst hnew
    cases r with
    | nil => exact ⟨new, by rw [Retry_nil h], hp⟩
    | permanent e => exact ⟨new, by rw [Retry_permanent h], hp⟩
    | err e => exact ⟨new, by rw [Retry_err_zero h], hp⟩
  | succ n ih =>
    intro tr
    obtain ⟨new, hnew, hp⟩ := hop tr
    rcases h : op tr with ⟨r, tr1⟩
    rw [h] at hnew
    simp only at hnew
    subst hnew
    cases r with
    | nil => exact ⟨new, by rw [Retry_nil h], hp⟩
    | permanent e => exact ⟨new, by rw [Retry_permanent h], hp⟩
    | err e =>
      obtain ⟨new2, hnew2, hp2⟩ := ih (tr ++ new)
      refine ⟨new ++ new2, by rw [Retry_err_succ h, hnew2, List.append_assoc], ?_⟩
      intro x hx
      rcases List.mem_append.mp hx with hx | hx
      · exact hp x hx
      · exact hp2 x hx

/-- One attempt starts with a provider call for its payload, and that is its only
provider call; it makes no device-token lookup. -/
theorem sendOperation_calls (env : Env) (payload : Payload) (token : String)
    (tr : List Effect) :
    ∃ r rest, (sendOperation env payload token tr).2 = tr ++ Effect.send payload r :: rest ∧
      ∀ e ∈ Effect.send payload r :: rest,
        (∀ q r1, e = Effect.send q r1 → q = payload) ∧ e.isDeviceLookup = false := by
  rcases sendOperation_cases env payload token tr with
    ⟨_, hop⟩ | ⟨_, hop⟩ | ⟨_, hop⟩ | ⟨e, _, _, _, hop⟩
  · exact ⟨_, _, by rw [hop], by simp [Effect.isDeviceLookup]⟩
  · refine ⟨_, _, by rw [hop], ?_⟩
    cases env.repo.UnregisterDevice token <;> simp [Effect.isDeviceLookup]
  · exact ⟨_, _, by rw [hop], by simp [Effect.isDeviceLookup]⟩
  · exact ⟨_, _, by rw [hop], by simp [Effect.isDeviceLookup]⟩

/-- The delivery to one token calls the provider at least once, always with the payload
addressed to that token, and makes no device-token lookup. -/
theorem sendToToken_calls (env : Env) (payload : Payload) (token : String)
    (tr : List Effect) :
    ∃ new, sendToToken env payload token tr = tr ++ new ∧
      (∃ r, Effect.send { payload with Token := token } r ∈ new) ∧
      ∀ e ∈ new, (∀ q r1, e = Effect.send q r1 → q = { payload with Token := token }) ∧
        e.isDeviceLookup = false := by
  obtain ⟨new, hnew, hp⟩ := Retry_forall
    (fun e => (∀ q r1, e = Effect.send q r1 → q = { payload with Token := token }) ∧
      e.isDeviceLookup = false)
    (sendOperation env { payload with Token := token } token)
    (fun t => by
      obtain ⟨r, rest, h1, h2⟩ := sendOperation_calls env { payload with Token := token } token t
      exact ⟨_, h1, h2⟩)
    env.retryBudget tr
  have hfirst : ∃ r, Effect.send { payload with Token := token } r ∈ new := by
    obtain ⟨r, rest, h1, _⟩ :=
      sendOperation_calls env { payload with Token := token } token tr
    have hext : ∃ more, (Retry (sendOperation env { payload with Token := token } token)
        env.retryBudget tr).2 =
        (sendOperation env { payload with Token := token } token tr).2 ++ more := by
      rcases hop : sendOperation env { payload with Token := token } token tr with ⟨res, tr1⟩
      cases res with
      | nil => exact ⟨[], by rw [Retry_nil hop]; simp⟩
      | permanent e => exact ⟨[], by rw [Retry_permanent hop]; simp⟩
      | err e =>
        cases hb : env.retryBudget with
        | zero => exact ⟨[], by rw [Retry_err_zero hop]; simp⟩
        | succ n =>
          obtain ⟨more, hmore⟩ :=
            Retry_extends env { payload with Token := token } token n tr1
          exact ⟨more, by rw [Retry_err_succ hop, hmore]⟩
    obtain ⟨more, hmore⟩ := hext
    rw [hnew, h1, List.append_assoc] at hmore
    have hn := List.append_cancel_left hmore
    exact ⟨r, by rw [hn]; simp⟩
  unfold sendToToken
  rcases hR : Retry (sendOperation env { payload with Token := token } token)
    env.retryBudget tr with ⟨res, tr1⟩
  rw [hR] at hnew
  simp only at hnew
  subst hnew
  cases res with
  | none => exact ⟨new, by simp only [hR], hfirst, hp⟩
  | some err =>
    obtain ⟨r, hr⟩ := hfirst
    refine ⟨new ++ [Effect.logError "an error occurred in sending fcm"],
      by simp only [hR, List.append_assoc], ⟨r, List.mem_append_left _ hr⟩, ?_⟩
    intro x hx
    rcases List.mem_append.mp hx with hx | hx
    · exact hp x hx
    · simp only [List.mem_singleton] at hx
      rw [hx]
      constructor
      · intro q r1 h
        cases h
      · rfl

theorem sentTokens_append (a b : List Effect) :
    sentTokens (a ++ b) = sentTokens a ++ sentTokens b := by
  simp [sentTokens, List.filterMap_append]

theorem mem_sentTokens_of_send {p : Payload} {r : Option SendError} {tr : List Effect}
    (h : Effect.send p r ∈ tr) : p.Token ∈ sentTokens tr := by
  unfold sentTokens
  rw [List.mem_filterMap]
  exact ⟨_, h, rfl⟩

/-- The loop over the device tokens of one user: provider calls only with the payload of
the event and one of the tokens, at least one call per token, no device-token lookup, and
nothing at all for an empty list. -/
theorem tokens_foldl_calls (env : Env) (data : DataMap) :
    ∀ (devs : List String) (tr : List Effect),
      ∃ new, devs.foldl (fun t token => sendToToken env (mkPayload env data) token t) tr =
          tr ++ new ∧
        (∀ p r, Effect.send p r ∈ new → p = payloadFor env data p.Token ∧ p.Token ∈ devs) ∧
        (∀ tok ∈ devs, tok ∈ sentTokens new) ∧
        (∀ e ∈ new, e.isDeviceLookup = false) ∧
        (devs = [] → new = []) := by
  intro devs
  induction devs with
  | nil => intro tr; exact ⟨[], by simp, by simp, by simp, by simp, fun _ => rfl⟩
  | cons tok devs ih =>
    intro tr
    obtain ⟨new1, h1, ⟨r0, hr0⟩, hp1⟩ := sendToToken_calls env (mkPayload env data) tok tr
    obtain ⟨new2, h2, hs2, ht2, hl2, _⟩ := ih (tr ++ new1)
    refine ⟨new1 ++ new2, ?_, ?_, ?_, ?_, ?_⟩
    · rw [List.foldl_cons, h1, h2, List.append_assoc]
    · intro p r hmem
      rcases List.mem_append.mp hmem with hmem | hmem
      · have hq := (hp1 _ hmem).1 p r rfl
        subst hq
        exact ⟨rfl, List.mem_cons_self _ _⟩
      · obtain ⟨ha, hb⟩ := hs2 p r hmem
        exact ⟨ha, List.mem_cons_of_mem _ hb⟩
    · intro t ht
      rw [sentTokens_append]
      rcases List.mem_cons.mp ht with ht | ht
      · subst ht
        exact List.mem_append_left _ (mem_sentTokens_of_send hr0)
      · exact List.mem_append_right _ (ht2 t ht)
    · intro e he
      rcases List.mem_append.mp he with he | he
      · exact (hp1 e he).2
      · exact hl2 e he
    · intro h
      cases h

/-- The work for one target user has the effects described by `servesUser`, whatever
happened before. -/
theorem sendToUser_serves (env : Env) (data : DataMap) (u : UUID) (tr : List Effect) :
    ∃ seg, sendToUser env data u tr = tr ++ seg ∧ servesUser env data u seg := by
  unfold sendToUser servesUser tokensOf
  cases hd : env.repo.GetDeviceTokensByUserID u with
  | error e =>
    refine ⟨_, rfl, by simp [Effect.isDeviceLookup], by simp, by simp, ?_⟩
    intro _
    exact ⟨by simp [providerCalls, Effect.isSend], fun label => by simp [counterValue]⟩
  | ok devs =>
    obtain ⟨new, hnew, hs, ht, hl, hempty⟩ :=
      tokens_foldl_calls env data devs (tr ++ [Effect.getDeviceTokensByUserID u])
    refine ⟨Effect.getDeviceTokensByUserID u :: new, ?_, ?_, ?_, ?_, ?_⟩
    · simp only [hnew, List.append_assoc, List.singleton_append]
    · have hf : new.filter Effect.isDeviceLookup = [] := by
        rw [List.filter_eq_nil_iff]
        intro e he
        simp [hl e he]
      simp [List.filter_cons, Effect.isDeviceLookup, hf]
    · intro p r hmem
      rcases List.mem_cons.mp hmem with hmem | hmem
      · cases hmem
      · exact hs p r hmem
    · intro tok htok
      have := ht tok htok
      simpa [sentTokens, List.filterMap_cons] using this
    · intro hnil
      simp only at hnil
      rw [hempty hnil]
      exact ⟨by simp [providerCalls, Effect.isSend], fun label => by simp [counterValue]⟩

/-- A fold of steps that each append one segment appends the segments one after the
other. -/
theorem foldl_segments {α : Type} (R : α → List Effect → Prop)
    (f : List Effect → α → List Effect)
    (hf : ∀ tr x, ∃ seg, f tr x = tr ++ seg ∧ R x seg) :
    ∀ (xs : List α) (tr : List Effect),
      ∃ segs, xs.foldl f tr = tr ++ segs.flatten ∧ List.Forall₂ R xs segs := by
  intro xs
  induction xs with
  | nil => intro tr; exact ⟨[], by simp, List.Forall₂.nil⟩
  | cons x xs ih =>
    intro tr
    obtain ⟨seg, h1, hr⟩ := hf tr x
    obtain ⟨segs, h2, hrs⟩ := ih (tr ++ seg)
    exact ⟨seg :: segs, by rw [List.foldl_cons, h1, h2, List.flatten_cons, List.append_assoc],
      List.Forall₂.cons hr hrs⟩

/-- The fan-out is the sequence of the segments of the target users. -/
theorem fanOut_segments (env : Env) (data : DataMap) (targets : UUIDSet) (tr : List Effect) :
    ∃ segs, fanOut env data targets tr = tr ++ segs.flatten ∧
      List.Forall₂ (servesUser env data) targets.toSortedList segs :=
  foldl_segments (servesUser env data) (fun t u => sendToUser env data u t)
    (fun t u => sendToUser_serves env data u t) targets.toSortedList tr

theorem forall₂_mem_right {α β : Type} {R : α → β → Prop} {xs : List α} {ys : List β}
    (h : List.Forall₂ R xs ys) {y : β} (hy : y ∈ ys) : ∃ x ∈ xs, R x y := by
  induction h with
  | nil => cases hy
  | cons hr _ ih =>
    rcases List.mem_cons.mp hy with hy | hy
    · subst hy
      exact ⟨_, List.mem_cons_self _ _, hr⟩
    · obtain ⟨x, hx, hrx⟩ := ih hy
      exact ⟨x, List.mem_cons_of_mem _ hx, hrx⟩

theorem forall₂_mem_left {α β : Type} {R : α → β → Prop} {xs : List α} {ys : List β}
    (h : List.Forall₂ R xs ys) {x : α} (hx : x ∈ xs) : ∃ y ∈ ys, R x y := by
  induction h with
  | nil => cases hx
  | cons hr _ ih =>
    rcases List.mem_cons.mp hx with hx | hx
    · subst hx
      exact ⟨_, List.mem_cons_self _ _, hr⟩
    · obtain ⟨y, hy, hry⟩ := ih hx
      exact ⟨y, List.mem_cons_of_mem _ hy, hry⟩

theorem mem_sentTokens_iff (tok : String) (tr : List Effect) :
    tok ∈ sentTokens tr ↔ ∃ p r, Effect.send p r ∈ tr ∧ p.Token = tok := by
  unfold sentTokens
  rw [List.mem_filterMap]
  constructor
  · rintro ⟨e, he, hf⟩
    cases e <;> simp at hf
    exact ⟨_, _, he, hf⟩
  · rintro ⟨p, r, he, hp⟩
    exact ⟨_, he, by simp [hp]⟩

/-- C13: when the target set `t` of an event was computed, the trace is made of effects
that do not belong to the sending, followed by one segment per target user, in which the
provider is called only with tokens that `GetDeviceTokensByUserID` returned for that user
(see `servesUser`): a user whose lookup fails or returns no token has a segment without
provider call and without counter increment, and the segment of every user is described
by the tokens of that user alone.  So the tokens the provider is called with in the whole
event are exactly the tokens of the target users. -/
theorem fanOut_per_user (env : Env) (message : Message) (plain : String)
    (embedded : List EmbeddedInfo) (t : UUIDSet)
    (ht : (processMessageCreated env message plain embedded).targets = some t) :
    ∃ d pre segs,
      (processMessageCreated env message plain embedded).data = some d ∧
      (processMessageCreated env message plain embedded).trace = pre ++ segs.flatten ∧
      (∀ e ∈ pre, e.isSending = false) ∧
      List.Forall₂ (servesUser env d) t.toSortedList segs ∧
      (∀ u, u ∈ t.toSortedList ↔ u ∈ t) ∧
      (∀ tok, tok ∈ sentTokens (processMessageCreated env message plain embedded).trace ↔
        ∃ u ∈ t, tok ∈ tokensOf env u) := by
  obtain ⟨pre, hpre, hshape⟩ := processMessageCreated_shape env message plain embedded
  rcases hshape with ⟨hnone, _⟩ | ⟨d, t1, hd, ht1, htr⟩
  · rw [hnone] at ht
    cases ht
  · rw [ht] at ht1
    cases ht1
    obtain ⟨segs, hsegs, hall⟩ := fanOut_segments env d t pre
    refine ⟨d, pre, segs, hd, by rw [htr, hsegs], hpre, hall,
      UUIDSet.mem_toSortedList t, ?_⟩
    intro tok
    rw [htr, hsegs, mem_sentTokens_iff]
    constructor
    · rintro ⟨p, r, hmem, hp⟩
      rcases List.mem_append.mp hmem with hmem | hmem
      · have := hpre _ hmem
        simp [Effect.isSending] at this
      · obtain ⟨seg, hseg, hin⟩ := List.mem_flatten.mp hmem
        obtain ⟨u, hu, hserve⟩ := forall₂_mem_right hall hseg
        exact ⟨u, (UUIDSet.mem_toSortedList t u).mp hu, by
          rw [← hp]; exact (hserve.2.1 p r hin).2⟩
    · rintro ⟨u, hu, htok⟩
      obtain ⟨seg, hseg, hserve⟩ :=
        forall₂_mem_left hall ((UUIDSet.mem_toSortedList t u).mpr hu)
      obtain ⟨p, r, hin, hp⟩ := (mem_sentTokens_iff tok seg).mp (hserve.2.2.1 tok htok)
      exact ⟨p, r, List.mem_append_right _ (List.mem_flatten.mpr ⟨seg, hseg, hin⟩), hp⟩

/-- C13, witness: in the forced channel the targets are `B`, `C` and `X`; the device
lookup of `B` fails, `C` has no device and `X` has the token `T4`.  The provider is
called once, with `T4`, as it is for `X` when the lookup of `B` succeeds. -/
theorem fanOut_per_user_witness :
    (processMessageCreated deviceFailEnv messageByA "hi" []).targets = some {2, 3, 4} ∧
    (∀ tok, tok ∈ sentTokens (processMessageCreated deviceFailEnv messageByA "hi" []).trace ↔
      ∃ u ∈ ({2, 3, 4} : UUIDSet), tok ∈ tokensOf deviceFailEnv u) ∧
    sentTokens (processMessageCreated deviceFailEnv messageByA "hi" []).trace = ["T4"] ∧
    (processMessageCreated deviceFailEnv messageByA "hi" []).trace.filter Effect.isSending =
      [Effect.getDeviceTokensByUserID 2, Effect.getDeviceTokensByUserID 3,
       Effect.getDeviceTokensByUserID 4,
       Effect.send (payloadFor deviceFailEnv
         ((processMessageCreated deviceFailEnv messageByA "hi" []).data.getD []) "T4") none,
       Effect.counterInc "ok"] ∧
    sentTokens (processMessageCreated (scenarioEnv fanOutTable sendOk 3) messageByA "hi"
      []).trace = ["T2", "T4"] :=
  ⟨by decide,
   (fanOut_per_user deviceFailEnv messageByA "hi" [] {2, 3, 4} (by decide)).elim
     fun _ h => h.elim fun _ h => h.elim fun _ h => h.2.2.2.2.2,
   by decide, by decide, by decide⟩

/-! ## The fixed entries of the data map -/

/-- The replacement of `#` works code point by code point: it commutes with
concatenation, turns `#` into `%23` and keeps every other code point. -/
theorem replaceHash_spec :
    (∀ a b : String, replaceHash (a ++ b) = replaceHash a ++ replaceHash b) ∧
    replaceHash "#" = "%23" ∧
    (∀ c : Char, c ≠ '#' → replaceHash (String.singleton c) = String.singleton c) ∧
    (∀ s : String, '#' ∉ (replaceHash s).data) := by
  refine ⟨?_, by decide, ?_, ?_⟩
  · intro a b
    apply String.ext
    simp [replaceHash, String.data_append, List.flatMap_append]
  · intro c hc
    apply String.ext
    simp [replaceHash, String.singleton, hc]
  · intro s
    unfold replaceHash
    simp only [List.mem_flatMap, not_exists, not_and]
    intro c _ hmem
    by_cases hc : c = '#'
    · rw [if_pos hc] at hmem
      revert hmem
      decide
    · rw [if_neg hc] at hmem
      simp only [List.mem_singleton] at hmem
      exact hc hmem.symm

/-- The entries of the initial map other than the title are still there after the
rendering. -/
theorem processMessageCreated_data_get (env : Env) (message : Message) (plain : String)
    (embedded : List EmbeddedInfo) (d : DataMap)
    (hd : (processMessageCreated env message plain embedded).data = some d) :
    ∃ mUser0, env.repo.GetUser message.UserID = .ok mUser0 ∧
      (d.get "title").isSome = true ∧ (d.get "path").isSome = true ∧
      (d.get "body").isSome = true ∧
      ∀ k, k ≠ "image" → k ≠ "body" → k ≠ "path" → k ≠ "title" →
        d.get k = (initData env (withDisplayName mUser0) message).get k := by
  obtain ⟨ch, mUser0, data1, body, tr1, _, hu, hR, _, hdata⟩ :=
    processMessageCreated_data env message plain embedded d hd
  have hget : ∀ k, k ≠ "image" → d.get k = (data1.set "body" (truncateBody body)).get k := by
    intro k hk
    rw [hdata, imageScan_get _ _ _ _ _ (fun h => hk h.symm)]
  have hdata1 : ∃ T P, data1 =
      ((initData env (withDisplayName mUser0) message).set "title" T).set "path" P := by
    rcases renderTitle_some _ _ _ _ _ _ _ _ _ _ hR with ⟨_, h1, _⟩ | ⟨_, path, _, h1, _⟩
    · exact ⟨_, _, h1⟩
    · exact ⟨_, _, h1⟩
  obtain ⟨T, P, h1⟩ := hdata1
  refine ⟨mUser0, hu, ?_, ?_, ?_, ?_⟩
  · rw [hget _ (by decide), DataMap.get_set_ne _ _ _ _ (by decide), h1,
      DataMap.get_set_ne _ _ _ _ (by decide), DataMap.get_set_self]
    rfl
  · rw [hget _ (by decide), DataMap.get_set_ne _ _ _ _ (by decide), h1, DataMap.get_set_self]
    rfl
  · rw [hget _ (by decide), DataMap.get_set_self]
    rfl
  · intro k hk1 hk2 hk3 hk4
    rw [hget k hk1, DataMap.get_set_ne _ _ _ _ (fun h => hk2 h.symm), h1,
      DataMap.get_set_ne _ _ _ _ (fun h => hk3 h.symm),
      DataMap.get_set_ne _ _ _ _ (fun h => hk4 h.symm)]

/-- C14: once the data map `d` of an event is built, it has the keys `title`, `body` and
`path`, and `icon` is `origin/api/1.0/public/icon/n` with `n` the author's name in which
every `#` is replaced by `%23`, `tag` is `c:` followed by the channel id, `badge` is
`origin/static/badge.png` and `vibration` is `[1000, 1000, 1000]`; every payload handed to
the provider carries this map. -/
theorem data_fixed_entries (env : Env) (message : Message) (plain : String)
    (embedded : List EmbeddedInfo) (d : DataMap)
    (hd : (processMessageCreated env message plain embedded).data = some d) :
    ∃ mUser0, env.repo.GetUser message.UserID = .ok mUser0 ∧
      (d.get "title").isSome = true ∧ (d.get "body").isSome = true ∧
      (d.get "path").isSome = true ∧
      d.get "icon" =
        some (env.origin ++ "/api/1.0/public/icon/" ++ replaceHash mUser0.Name) ∧
      d.get "tag" = some ("c:" ++ env.uuidString message.ChannelID) ∧
      d.get "badge" = some (env.origin ++ "/static/badge.png") ∧
      d.get "vibration" = some "[1000, 1000, 1000]" ∧
      (∀ p r, Effect.send p r ∈ (processMessageCreated env message plain embedded).trace →
        p.Data = d) ∧
      (∀ a b : String, replaceHash (a ++ b) = replaceHash a ++ replaceHash b) ∧
      replaceHash "#" = "%23" ∧
      (∀ c : Char, c ≠ '#' → replaceHash (String.singleton c) = String.singleton c) := by
  obtain ⟨mUser0, hu, ht, hp, hb, hk⟩ :=
    processMessageCreated_data_get env message plain embedded d hd
  refine ⟨mUser0, hu, ht, hb, hp, ?_, ?_, ?_, ?_, ?_, replaceHash_spec.1, replaceHash_spec.2.1,
    replaceHash_spec.2.2.1⟩
  · rw [hk "icon" (by decide) (by decide) (by decide) (by decide)]
    simp [initData, DataMap.get, withDisplayName_Name]
  · rw [hk "tag" (by decide) (by decide) (by decide) (by decide)]
    simp [initData, DataMap.get]
  · rw [hk "badge" (by decide) (by decide) (by decide) (by decide)]
    simp [initData, DataMap.get]
  · rw [hk "vibration" (by decide) (by decide) (by decide) (by decide)]
    simp [initData, DataMap.get]
  · intro p r hmem
    obtain ⟨pre, hpre, hshape⟩ := processMessageCreated_shape env message plain embedded
    rcases hshape with ⟨_, htr⟩ | ⟨d1, t, hd1, _, htr⟩
    · rw [htr] at hmem
      have := hpre _ hmem
      simp [Effect.isSending] at this
    · rw [hd] at hd1
      cases hd1
      obtain ⟨segs, hsegs, hall⟩ := fanOut_segments env d t pre
      rw [htr, hsegs] at hmem
      rcases List.mem_append.mp hmem with hmem | hmem
      · have := hpre _ hmem
        simp [Effect.isSending] at this
      · obtain ⟨seg, hseg, hin⟩ := List.mem_flatten.mp hmem
        obtain ⟨u, _, hserve⟩ := forall₂_mem_right hall hseg
        have hpay := (hserve.2.1 p r hin).1
        rw [hpay]
        rfl

/-- C14, witness: the author `foo#1` writes in the channel with id `ch`. -/
theorem data_fixed_entries_witness :
    (processMessageCreated (scenarioEnv hashTable sendOk 3) messageByA "hi" []).data =
      some hashData ∧
    hashData.get "icon" = some "https://q.example/api/1.0/public/icon/foo%231" ∧
    hashData.get "tag" = some "c:ch" ∧
    hashData.get "badge" = some "https://q.example/static/badge.png" ∧
    hashData.get "vibration" = some "[1000, 1000, 1000]" ∧
    replaceHash "foo#1" = "foo%231" ∧
    ∃ mUser0, (scenarioEnv hashTable sendOk 3).repo.GetUser messageByA.UserID = .ok mUser0 ∧
      (hashData.get "title").isSome = true ∧ (hashData.get "body").isSome = true ∧
      (hashData.get "path").isSome = true ∧
      hashData.get "icon" = some ((scenarioEnv hashTable sendOk 3).origin ++
        "/api/1.0/public/icon/" ++ replaceHash mUser0.Name) :=
  ⟨by decide, by decide, by decide, by decide, by decide, by decide,
   (data_fixed_entries (scenarioEnv hashTable sendOk 3) messageByA "hi" [] hashData
      (by decide)).elim
     fun u h => ⟨u, h.1, h.2.1, h.2.2.1, h.2.2.2.1, h.2.2.2.2.1⟩⟩

end FCM
